import Mathlib

/-!
Verification development for the PennyLane default.tensor device
(src/pennylane/beta/plugins/default_tensor.py).

The device is embedded shallowly as a state machine on a record mirroring the
attributes of the DefaultTensor class.  Python methods that mutate self and may
raise become functions Dev -> Except Err A × Dev: the returned Dev carries every
mutation made before a raise, exactly as Python exception semantics do.

Scalars: the source computes with complex128 floats.  We model the complex
scalars exactly as pairs of integers (CQ below): every number the verified
scenarios produce is a Gaussian integer, the structural claims are independent
of the scalar arithmetic, and integer components keep every definition
computable and every concrete run kernel-decidable; none of the verified
claims is about floating-point rounding.

External code:
- the tensornetwork library (tn.Node / tn.connect / contractors / FiniteMPS) is
  modelled denotationally: nodes and edges by explicit bookkeeping records,
  exact-mode contraction by its mathematical value, and the MPS-specific
  numerics (SVD splits, one/two-site chain updates, chain contraction) by an
  explicit TNBackend parameter, since their numeric content lives outside the
  repository;
- pennylane.beta.plugins.numpy_ops is repository code that is not under src/;
  the gate/observable matrix catalog it provides is modelled from the spec as a
  Catalog parameter (spec: a name-keyed catalog of fixed matrices or functions
  of the parameters), and np.random.choice is modelled from its documented
  contract with an explicit random-index parameter.
-/

namespace DT

/-- Complex scalars with exact integer components (model of complex128). -/
structure CQ where
  re : ℤ
  im : ℤ
deriving DecidableEq, Repr

namespace CQ

def add (a b : CQ) : CQ := ⟨a.re + b.re, a.im + b.im⟩

def mul (a b : CQ) : CQ := ⟨a.re * b.re - a.im * b.im, a.re * b.im + a.im * b.re⟩

/-- Complex conjugation, the model of tn.conj / elementwise conjugate. -/
def conj (a : CQ) : CQ := ⟨a.re, -a.im⟩

instance : Zero CQ := ⟨⟨0, 0⟩⟩
instance : One CQ := ⟨⟨1, 0⟩⟩
instance : Add CQ := ⟨add⟩
instance : Mul CQ := ⟨mul⟩

def ofNatZ (n : Nat) : CQ := ⟨(n : ℤ), 0⟩

end CQ

/-- Sum of a list of complex scalars. -/
def sumC (l : List CQ) : CQ := l.foldr (· + ·) 0

/-- Product of a list of complex scalars. -/
def prodC (l : List CQ) : CQ := l.foldr (· * ·) 1

/-- Product of a list of real scalars (np.prod over real eigenvalues). -/
def prodZ (l : List ℤ) : ℤ := l.foldr (· * ·) 1

/-!  Bit manipulation for C-ordered flat tensor data.  A rank-r tensor whose
axes all have size 2 is stored as a flat list of length 2^r in C order, so axis
0 is the most significant bit of the flat index, matching np.reshape. -/

/-- Bit of the flat index b at axis w out of n axes (axis 0 most significant). -/
def bitOf (n w b : Nat) : Nat := (b / 2 ^ (n - 1 - w)) % 2

/-- Set the bit at axis w of flat index b to v. -/
def setBitAt (n w b v : Nat) : Nat :=
  b - bitOf n w b * 2 ^ (n - 1 - w) + v * 2 ^ (n - 1 - w)

/-- The sub-index of flat index b formed by the axes listed in ws. -/
def bitsAt (n : Nat) (ws : List Nat) (b : Nat) : Nat :=
  ws.foldl (fun acc w => 2 * acc + bitOf n w b) 0

/-- Overwrite the bits of flat index b at the axes ws with the bits of the
    length-ws.length index c. -/
def setBitsAt (n : Nat) (ws : List Nat) (b c : Nat) : Nat :=
  (List.range ws.length).foldl
    (fun acc j => setBitAt n (ws.getD j 0) acc (bitOf ws.length j c)) b

/-- A numerical tensor: shape plus C-ordered flat data (model of an ndarray /
    the tensor held by a tn.Node). -/
structure QTensor where
  shape : List Nat
  data : List CQ
deriving DecidableEq, Repr

namespace QTensor

def rank (t : QTensor) : Nat := t.shape.length

/-- np.squeeze: drop all singleton axes; C-ordered flat data is unchanged. -/
def squeeze (t : QTensor) : QTensor := ⟨t.shape.filter (· ≠ 1), t.data⟩

/-- np.expand_dims(t, 0). -/
def expandFront (t : QTensor) : QTensor := ⟨1 :: t.shape, t.data⟩

/-- np.expand_dims(t, -1). -/
def expandBack (t : QTensor) : QTensor := ⟨t.shape ++ [1], t.data⟩

end QTensor

/-- A square matrix of complex scalars, row-major flat data (model of the
    2^k x 2^k operator matrices). -/
structure CMat where
  dim : Nat
  data : List CQ
deriving DecidableEq, Repr

namespace CMat

def entry (A : CMat) (i j : Nat) : CQ := A.data.getD (i * A.dim + j) 0

/-- Matrix product A @ B (the numpy matmul used by DefaultTensor.var). -/
def matMul (A B : CMat) : CMat :=
  ⟨A.dim,
    (List.range A.dim).flatMap (fun i =>
      (List.range A.dim).map (fun j =>
        sumC ((List.range A.dim).map (fun l => A.entry i l * B.entry l j))))⟩

end CMat

/-- Decidable equality of call results, so that concrete runs of the model can
be checked by the kernel. -/
instance exceptDecEq {ε α : Type} [DecidableEq ε] [DecidableEq α] :
    DecidableEq (Except ε α)
  | .error e, .error e' =>
      if h : e = e' then .isTrue (by rw [h])
      else .isFalse (fun hh => by cases hh; exact h rfl)
  | .error _, .ok _ => .isFalse (fun hh => by cases hh)
  | .ok _, .error _ => .isFalse (fun hh => by cases hh)
  | .ok a, .ok b =>
      if h : a = b then .isTrue (by rw [h])
      else .isFalse (fun hh => by cases hh; exact h rfl)

/-- The error taxonomy.  The source raises plain ValueError / NotImplementedError
/ KeyError / IndexError; constructors follow the spec's classification of each
raise site (spec section 7), plus the un-classified Python errors the code can
also produce (keyError, indexError, valueErr). -/
inductive Err where
  | invalidConfig
  | shapeMismatch
  | invalidWires
  | notSupported
  | keyError
  | indexError
  | valueErr
deriving DecidableEq, Repr

/-- A single entry of the Python parameter tuple par. -/
inductive PVal where
  | num (x : ℤ)
  | vec (v : List CQ)
  | bits (bs : List Nat)
  | mat (m : CMat)
deriving DecidableEq, Repr

namespace PVal

/-- ndim of the ndarray np.array would build from this parameter. -/
def ndim : PVal → Nat
  | .num _ => 0
  | .vec _ => 1
  | .bits _ => 1
  | .mat _ => 2

/-- The 1-D data of the parameter, when it is 1-D. -/
def asVec : PVal → List CQ
  | .vec v => v
  | .bits bs => bs.map CQ.ofNatZ
  | _ => []

end PVal

/-- An edge of the tensor network: (owning node serial, axis index).  tn.Edge
objects are owned by nodes; danglingness is judged against the connected set
recorded in the device state. -/
abbrev EdgeId := Nat × Nat

/-- A registered tn.Node: serial number (allocation order), display name, the
wires it was registered for, and its tensor. -/
structure Node where
  serial : Nat
  name : String
  wires : List Nat
  tensor : QTensor
deriving DecidableEq, Repr

/-- The list of edges of a node, one per tensor axis, in axis order
    (node.edges in tensornetwork). -/
def Node.edges (nd : Node) : List EdgeId :=
  (List.range nd.tensor.rank).map (fun ax => (nd.serial, ax))

/-- One node of the MPS chain: its serial and its tensor. -/
abbrev ChainNode := Nat × QTensor

/-- The mutable state of a DefaultTensor instance.

nodes_state / nodes_observables are the two lists of the _nodes dictionary.
connected records every edge that tn.connect has been called on, and
nextSerial the tn.Node allocation counter; both are the explicit form of the
object graph the tensornetwork library keeps implicitly. -/
structure Dev where
  num_wires : Nat
  shots : Nat
  rep : String
  contraction_method : String
  nodes_state : List Node
  nodes_observables : List Node
  free_wire_edges : List EdgeId
  mps : Option (List ChainNode)
  contracted : Option QTensor
  connected : List EdgeId
  nextSerial : Nat
deriving DecidableEq, Repr

/-- Modelled from the spec: the matrix catalog of numpy_ops (repository code
not under src/).  The spec describes it as a name-keyed catalog where each
entry is either a fixed matrix or a function of the parameters; a Catalog
gives, for each name, that resolving function. -/
def Catalog := String → List PVal → CMat

/-- Numeric semantics of the tensornetwork-library calls whose values are
produced outside this repository: tn.split_node SVD factors used by the MPS
state-prep decomposition, FiniteMPS.apply_one_site_gate /
apply_two_site_gate local chain updates, the MPS chain contraction of
_contract_premeasurement_network, and the value computed by _ev_mps. -/
structure TNBackend where
  splitNode : QTensor → QTensor × QTensor
  oneSite : QTensor → QTensor → QTensor
  twoSite : QTensor → QTensor → QTensor → QTensor × QTensor
  mpsContract : List QTensor → QTensor
  mpsEv : List QTensor → List (QTensor × List Nat) → CQ

/-- Keys of the _operation_map dictionary. -/
def operation_names : List String :=
  ["BasisState", "QubitStateVector", "QubitUnitary", "PauliX", "PauliY",
   "PauliZ", "Hadamard", "S", "T", "CNOT", "SWAP", "CSWAP", "Toffoli", "CZ",
   "PhaseShift", "RX", "RY", "RZ", "Rot", "CRX", "CRY", "CRZ", "CRot"]

/-- Keys of the _observable_map dictionary. -/
def observable_names : List String :=
  ["PauliX", "PauliY", "PauliZ", "Hadamard", "Hermitian", "Identity"]

/-- _operation_and_observable_map membership plus catalog resolution:
some f when the name is a key of the merged dictionary, none means KeyError. -/
def mergedLookup (cat : Catalog) (op : String) : Option (List PVal → CMat) :=
  if op ∈ operation_names ∨ op ∈ observable_names then some (cat op) else none

/-- Keys of the contract_fns dictionary of contraction strategies. -/
def contract_fns_names : List String := ["greedy", "branch", "optimal", "auto"]

/-- _zero_state: the vector [1, 0]. -/
def zero_state : QTensor := ⟨[2], [1, 0]⟩

/-- zero_vec[::-1]: the vector [0, 1] built in the BasisState branch. -/
def one_state : QTensor := ⟨[2], [0, 1]⟩


/-- _clear_network_data: empty the node dictionary, the wire edge table, the
MPS chain and the contracted-state cache. -/
def clearNetworkData (d : Dev) : Dev :=
  { d with nodes_state := [], nodes_observables := [], free_wire_edges := [],
           mps := none, contracted := none }

/-- _add_node: register a tensor as a node under the given key and return it. -/
def addNode (t : QTensor) (wires : List Nat) (nm : String) (key : String)
    (d : Dev) : Node × Dev :=
  let nd : Node := ⟨d.nextSerial, nm, wires, t⟩
  (nd, { d with
          nextSerial := d.nextSerial + 1,
          nodes_state := if key = "state" then d.nodes_state ++ [nd] else d.nodes_state,
          nodes_observables :=
            if key = "observables" then d.nodes_observables ++ [nd]
            else d.nodes_observables })

/-- zip of three lists (Python zip over three sequences). -/
def zip3 (a : List α) (b : List β) (c : List γ) : List (α × β × γ) :=
  a.zip (b.zip c)

def maxL (l : List Nat) : Nat := l.foldr max 0

def minL : List Nat → Nat
  | [] => 0
  | x :: xs => xs.foldr min x

/-- The exact-representation loop of _add_initial_state_nodes: per component,
validate rank against the wire group, register the node, and extend the wire
edge table with the node's dangling edges.  A raise keeps all mutations made
for earlier components, as in Python. -/
def exactInitLoop : List (QTensor × List Nat × String) → Dev → Except Err Unit × Dev
  | [], d => (.ok (), d)
  | (t, ws, nm) :: rest, d =>
    if t.rank ≠ ws.length then (.error .shapeMismatch, d)
    else
      let nd := (addNode t ws nm "state" d).1
      let d1 := (addNode t ws nm "state" d).2
      exactInitLoop rest { d1 with free_wire_edges := d1.free_wire_edges ++ nd.edges }

/-- The SVD-split loop breaking a multi-wire tensor into MPS chain form: every
wire but the last receives the left SVD factor, the last the remainder. -/
def mpsSplitLoop (B : TNBackend) (nm : String) :
    List Nat → QTensor → Dev → List ChainNode × Dev
  | [], _, d => ([], d)
  | [w], dv, d =>
      let nd := (addNode dv [w] nm "state" d).1
      ([(nd.serial, dv)], (addNode dv [w] nm "state" d).2)
  | w :: w' :: rest, dv, d =>
      let u := (B.splitNode dv).1
      let dv' := (B.splitNode dv).2
      let nd := (addNode u [w] nm "state" d).1
      let d1 := (addNode u [w] nm "state" d).2
      let tail := (mpsSplitLoop B nm (w' :: rest) dv' d1).1
      let d2 := (mpsSplitLoop B nm (w' :: rest) dv' d1).2
      ((nd.serial, u) :: tail, d2)

/-- The MPS-representation loop of _add_initial_state_nodes: validate rank, add
trivial boundary bond axes, insert (1,2,1) tensors directly, and decompose
wider tensors over a contiguous wire range via repeated SVD splits. -/
def mpsInitLoop (B : TNBackend) :
    List (QTensor × List Nat × String) → List ChainNode → Dev →
    Except Err (List ChainNode) × Dev
  | [], acc, d => (.ok acc, d)
  | (t, ws, nm) :: rest, acc, d =>
    if t.rank ≠ ws.length then (.error .shapeMismatch, d)
    else
      let t' := t.expandFront.expandBack
      if t'.shape = [1, 2, 1] then
        let nd := (addNode t' ws nm "state" d).1
        mpsInitLoop B rest (acc ++ [(nd.serial, t')]) (addNode t' ws nm "state" d).2
      else if ws = [] then (.error .valueErr, d)
      else if maxL ws - minL ws ≠ ws.length - 1 then (.error .notSupported, d)
      else
        let chain := (mpsSplitLoop B nm ws t' d).1
        mpsInitLoop B rest (acc ++ chain) (mpsSplitLoop B nm ws t' d).2

/-- _add_initial_state_nodes. -/
def addInitialStateNodes (B : TNBackend) (ts : List QTensor) (ws : List (List Nat))
    (ns : List String) (d : Dev) : Except Err Unit × Dev :=
  if ¬(ts.length = ws.length ∧ ws.length = ns.length) then (.error .valueErr, d)
  else if d.rep = "exact" then
    exactInitLoop (zip3 ts ws ns) { d with free_wire_edges := [] }
  else if d.rep = "mps" then
    match mpsInitLoop B (zip3 ts ws ns) [] d with
    | (.ok ch, d1) =>
        (.ok (),
          { d1 with
            mps := some ch
            free_wire_edges := ch.map (fun c => (c.1, 1)) })
    | (.error e, d1) => (.error e, d1)
  else (.ok (), d)

/-- The BasisState per-wire tensor selection at one set of wire indices. -/
def basisTensorsGo (bs : List Nat) : List Nat → Option (List QTensor)
  | [] => some []
  | w :: rest =>
      match bs.get? w with
      | none => none
      | some x =>
          (basisTensorsGo bs rest).map ((if x = 0 then zero_state else one_state) :: ·)

/-- The BasisState per-wire tensor construction
[zero_vec if par[0][wire] == 0 else one_vec for wire in range(num_wires)]:
indexes the parameter array at every wire up to num_wires - 1, so none means
the Python IndexError raised when the array is shorter than num_wires. -/
def basisTensors (bs : List Nat) (n : Nat) : Option (List QTensor) :=
  basisTensorsGo bs (List.range n)

/-- _add_state_prep_nodes. -/
def addStatePrepNodes (B : TNBackend) (op : String) (par : List PVal) (d : Dev) :
    Except Err Unit × Dev :=
  if op = "QubitStateVector" then
    match par.head? with
    | none => (.error .indexError, d)
    | some p =>
        if p.ndim = 1 ∧ p.asVec.length = 2 ^ d.num_wires then
          addInitialStateNodes B [⟨List.replicate d.num_wires 2, p.asVec⟩]
            [List.range d.num_wires] [op] d
        else (.error .shapeMismatch, d)
  else if op = "BasisState" then
    match par.head? with
    | none => (.error .indexError, d)
    | some (.bits bs) =>
        if bs.length = 0 ∨ bs.length > d.num_wires ∨ ¬(∀ x ∈ bs, x = 0 ∨ x = 1)
        then (.error .invalidWires, d)
        else
          match basisTensors bs d.num_wires with
          | none => (.error .indexError, d)
          | some ts =>
              addInitialStateNodes B ts
                ((List.range d.num_wires).map (fun w => [w]))
                (List.replicate d.num_wires op) d
    | some _ => (.error .valueErr, d)
  else (.ok (), d)

/-- The exact-representation loop of _add_gate_nodes: for each wire, connect
the gate node's input axis k+idx to the wire's current dangling edge and make
the gate node's output axis idx the wire's new dangling edge. -/
def gateLoopExact (serial k : Nat) : List Nat → Nat → Dev → Except Err Unit × Dev
  | [], _, d => (.ok (), d)
  | w :: rest, idx, d =>
    match d.free_wire_edges.get? w with
    | none => (.error .indexError, d)
    | some e =>
        gateLoopExact serial k rest (idx + 1)
          { d with
            connected := (serial, k + idx) :: e :: d.connected,
            free_wire_edges := d.free_wire_edges.set w (serial, idx) }

/-- _add_gate_nodes. -/
def addGateNodes (cat : Catalog) (B : TNBackend) (op : String) (wires : List Nat)
    (par : List PVal) (d : Dev) : Except Err Unit × Dev :=
  match mergedLookup cat op with
  | none => (.error .keyError, d)
  | some f =>
      let A := f par
      let k := wires.length
      if A.dim = 2 ^ k then
        let reshaped : QTensor := ⟨List.replicate (2 * k) 2, A.data⟩
        let opNode := (addNode reshaped wires op "state" d).1
        let d1 := (addNode reshaped wires op "state" d).2
        if d.rep = "exact" then gateLoopExact opNode.serial k wires 0 d1
        else if d.rep = "mps" then
          match wires with
          | [w] =>
              match d1.mps with
              | none => (.error .valueErr, d1)
              | some chain =>
                  match chain.get? w with
                  | none => (.error .indexError, d1)
                  | some cn =>
                      let s := d1.nextSerial
                      (.ok (), { d1 with
                        nextSerial := s + 1
                        mps := some (chain.set w (s, B.oneSite reshaped cn.2))
                        free_wire_edges := d1.free_wire_edges.set w (s, 1) })
          | [w1, w2] =>
              if ((w2 : Int) - (w1 : Int)).natAbs = 1 then
                match d1.mps with
                | none => (.error .valueErr, d1)
                | some chain =>
                    match chain.get? w1, chain.get? w2 with
                    | some c1, some c2 =>
                        let t1 := (B.twoSite reshaped c1.2 c2.2).1
                        let t2 := (B.twoSite reshaped c1.2 c2.2).2
                        let s1 := d1.nextSerial
                        let s2 := d1.nextSerial + 1
                        (.ok (), { d1 with
                          nextSerial := s2 + 1
                          mps := some ((chain.set w1 (s1, t1)).set w2 (s2, t2))
                          free_wire_edges :=
                            (d1.free_wire_edges.set w1 (s1, 1)).set w2 (s2, 1) })
                    | _, _ => (.error .indexError, d1)
              else (.error .notSupported, d1)
          | _ => (.error .notSupported, d1)
        else (.ok (), d1)
      else (.error .valueErr, d)

/-- DefaultTensor.apply. -/
def apply (cat : Catalog) (B : TNBackend) (op : String) (wires : List Nat)
    (par : List PVal) (d : Dev) : Except Err Unit × Dev :=
  if op = "QubitStateVector" ∨ op = "BasisState" then
    if wires ≠ [] ∧ wires ≠ List.range d.num_wires then (.error .invalidWires, d)
    else addStatePrepNodes B op par (clearNetworkData d)
  else addGateNodes cat B op wires par d

/-- DefaultTensor.reset: clear everything and prepare the factorized all-zeros
state. -/
def resetDev (B : TNBackend) (d : Dev) : Except Err Unit × Dev :=
  addInitialStateNodes B (List.replicate d.num_wires zero_state)
    ((List.range d.num_wires).map (fun w => [w]))
    (List.replicate d.num_wires "ZeroState") (clearNetworkData d)

/-- DefaultTensor.__init__: validate the representation (the contraction-method
string is stored without validation), then reset. -/
def dinit (B : TNBackend) (wires shots : Nat) (rep cm : String) : Except Err Dev :=
  if rep ≠ "exact" ∧ rep ≠ "mps" then .error .invalidConfig
  else
    match resetDev B ⟨wires, shots, rep, cm, [], [], [], none, none, [], 0⟩ with
    | (.ok _, d1) => .ok d1
    | (.error e, _) => .error e

/-- The contraction_method property setter. -/
def setContractionMethod (m : String) (d : Dev) : Except Err Unit × Dev :=
  if m ∉ contract_fns_names then (.error .invalidConfig, d)
  else (.ok (), { d with contraction_method := m })

/-!  Denotation of the exact-mode contraction.  The state network built by this
device is always a layer of initial-state nodes (tensor rank = number of wires)
followed by gate nodes (tensor rank = twice the number of wires) applied in
registration order, with the output edge order fixed to the wire edge table.
The value any of the tn contractors computes for such a network is the initial
product state with the gates applied in order; exactNetworkState is that value,
none when the node list does not have this shape. -/

def isInitNode (nd : Node) : Bool := nd.tensor.rank == nd.wires.length

def isGateNode (nd : Node) : Bool := nd.tensor.rank == 2 * nd.wires.length

/-- The flat data of the product state formed by the initial-state nodes. -/
def productState (n : Nat) (inits : List Node) : List CQ :=
  (List.range (2 ^ n)).map (fun b =>
    prodC (inits.map (fun nd => nd.tensor.data.getD (bitsAt n nd.wires b) 0)))

/-- Apply a k-wire gate (flat data A, C-ordered, axes [out..., in...]) to the
wires ws of an n-wire state with flat data psi. -/
def applyGateData (n : Nat) (ws : List Nat) (A : List CQ) (psi : List CQ) : List CQ :=
  let k := ws.length
  (List.range (2 ^ n)).map (fun b =>
    sumC ((List.range (2 ^ k)).map (fun c =>
      A.getD (bitsAt n ws b * 2 ^ k + c) 0 * psi.getD (setBitsAt n ws b c) 0)))

/-- Contraction value of the exact-mode state network. -/
def exactNetworkState (n : Nat) (nodes : List Node) : Option QTensor :=
  let inits := nodes.takeWhile isInitNode
  let gates := nodes.dropWhile isInitNode
  let wl := inits.flatMap Node.wires
  if gates.all isGateNode ∧ wl.length = n ∧ (∀ w ∈ List.range n, wl.count w = 1) then
    some ⟨List.replicate n 2,
      gates.foldl (fun psi g => applyGateData n g.wires g.tensor.data psi)
        (productState n inits)⟩
  else none

/-- _contract_premeasurement_network: memoized; on a cache miss, exact mode
looks up the contraction strategy (KeyError for an unknown name) and contracts
the state network, MPS mode contracts the chain bonds and squeezes. -/
def contractPremeasurement (B : TNBackend) (d : Dev) : Except Err Unit × Dev :=
  match d.contracted with
  | some _ => (.ok (), d)
  | none =>
      if d.rep = "exact" then
        if d.contraction_method ∈ contract_fns_names then
          match exactNetworkState d.num_wires d.nodes_state with
          | some psi => (.ok (), { d with contracted := some psi })
          | none => (.error .valueErr, d)
        else (.error .keyError, d)
      else if d.rep = "mps" then
        match d.mps with
        | some chain =>
            (.ok (), { d with
              contracted := some (B.mpsContract (chain.map Prod.snd)).squeeze })
        | none => (.error .valueErr, d)
      else (.error .valueErr, d)

/-- DefaultTensor._state: contract (cached), then return the squeezed tensor. -/
def stateFn (B : TNBackend) (d : Dev) : Except Err QTensor × Dev :=
  match contractPremeasurement B d with
  | (.ok _, d1) =>
      match d1.contracted with
      | some ket => (.ok ket.squeeze, d1)
      | none => (.error .valueErr, d1)
  | (.error e, d1) => (.error e, d1)

/-- Value of the closed bra/observables/ket network contracted by _ev_exact:
sum over bra index b and ket index c, which the direct bra-ket connections
force to agree on every unmeasured wire, of
conj(psi[b]) * (product over observables of A[b-bits, c-bits]) * psi[c]. -/
def evExactVal (n : Nat) (psi : QTensor) (obs : List (QTensor × List Nat)) : CQ :=
  let meas := obs.flatMap Prod.snd
  sumC ((List.range (2 ^ n)).flatMap (fun b =>
    (List.range (2 ^ n)).map (fun c =>
      if ∀ w ∈ List.range n, w ∉ meas → bitOf n w b = bitOf n w c then
        CQ.conj (psi.data.getD b 0) *
          prodC (obs.map (fun oc =>
            oc.1.data.getD (bitsAt n oc.2 b * 2 ^ oc.2.length + bitsAt n oc.2 c) 0)) *
          psi.data.getD c 0
      else 0)))

/-- DefaultTensor._ev_exact: contract the premeasurement network (caching it),
then contract the bra/observables/ket network to a scalar. -/
def evExact (B : TNBackend) (obsNodes : List Node) (wires : List (List Nat))
    (d : Dev) : Except Err CQ × Dev :=
  match contractPremeasurement B d with
  | (.error e, d1) => (.error e, d1)
  | (.ok _, d1) =>
      match d1.contracted with
      | some ket =>
          (.ok (evExactVal d1.num_wires ket ((obsNodes.map Node.tensor).zip wires)), d1)
      | none => (.error .valueErr, d1)

/-- DefaultTensor._ev_mps: reject observables wider than two wires or on
non-adjacent wire pairs, then compute the chain expectation value (numerics via
the backend). -/
def evMps (B : TNBackend) (obsNodes : List Node) (wires : List (List Nat))
    (d : Dev) : Except Err CQ × Dev :=
  if ∃ ws ∈ wires, ws.length > 2 then (.error .notSupported, d)
  else if ∃ ws ∈ wires, ws.length = 2 ∧ ((ws.getD 1 0 : Int) - (ws.getD 0 0 : Int)).natAbs > 1
  then (.error .notSupported, d)
  else
    match d.mps with
    | none => (.error .valueErr, d)
    | some chain =>
        (.ok (B.mpsEv (chain.map Prod.snd) ((obsNodes.map Node.tensor).zip wires)), d)

/-- DefaultTensor.ev: dispatch on the representation and return the real part
(the imaginary-residue warning has no effect on state or value). -/
def ev (B : TNBackend) (obsNodes : List Node) (wires : List (List Nat)) (d : Dev) :
    Except Err ℤ × Dev :=
  match (if d.rep = "exact" then evExact B obsNodes wires d
         else if d.rep = "mps" then evMps B obsNodes wires d
         else (.error .valueErr, d)) with
  | (.ok v, d1) => (.ok v.re, d1)
  | (.error e, d1) => (.error e, d1)

/-- _create_nodes_from_tensors. -/
def createNodesFromTensors (key : String) :
    List (QTensor × List Nat × String) → Dev → List Node × Dev
  | [], d => ([], d)
  | (t, ws, nm) :: rest, d =>
      let nd := (addNode t ws nm key d).1
      let d1 := (addNode t ws nm key d).2
      ((nd :: (createNodesFromTensors key rest d1).1),
        (createNodesFromTensors key rest d1).2)

/-- The matrix-resolution-and-reshape loop at the top of expval: all tensors
are built (and any KeyError / reshape error raised) before any node is
registered. -/
def resolveObsTensors (cat : Catalog) :
    List (String × List PVal × List Nat) → Except Err (List QTensor)
  | [] => .ok []
  | (o, p, w) :: rest =>
      match mergedLookup cat o with
      | none => .error .keyError
      | some f =>
          let A := f p
          if A.dim = 2 ^ w.length then
            match resolveObsTensors cat rest with
            | .ok ts => .ok (⟨List.replicate (2 * w.length) 2, A.data⟩ :: ts)
            | .error e => .error e
          else .error .valueErr

/-- DefaultTensor.expval (list form; a single observable is wrapped into
singleton lists by the source before reaching this code path). -/
def expval (cat : Catalog) (B : TNBackend) (obs : List String)
    (wires : List (List Nat)) (par : List (List PVal)) (d : Dev) :
    Except Err ℤ × Dev :=
  match resolveObsTensors cat (zip3 obs par wires) with
  | .error e => (.error e, d)
  | .ok ts =>
      ev B (createNodesFromTensors "observables" (zip3 ts wires obs) d).1 wires
        (createNodesFromTensors "observables" (zip3 ts wires obs) d).2

/-- The matrix-resolution loop of var and sample. -/
def resolveMatrices (cat : Catalog) : List (String × List PVal) → Except Err (List CMat)
  | [] => .ok []
  | (o, p) :: rest =>
      match mergedLookup cat o with
      | none => .error .keyError
      | some f =>
          match resolveMatrices cat rest with
          | .ok ms => .ok (f p :: ms)
          | .error e => .error e

/-- The reshape comprehensions of var: reshape each matrix to rank
2 * len(wires), failing on a size mismatch. -/
def reshapeAll : List (CMat × List Nat) → Except Err (List QTensor)
  | [] => .ok []
  | (A, w) :: rest =>
      if A.dim = 2 ^ w.length then
        match reshapeAll rest with
        | .ok ts => .ok (⟨List.replicate (2 * w.length) 2, A.data⟩ :: ts)
        | .error e => .error e
      else .error .valueErr

/-- DefaultTensor.var (list form): resolve the matrices, reshape them and their
matrix squares A @ A, register both node groups, and return
ev(squared nodes) - ev(nodes) ^ 2. -/
def var (cat : Catalog) (B : TNBackend) (obs : List String)
    (wires : List (List Nat)) (par : List (List PVal)) (d : Dev) :
    Except Err ℤ × Dev :=
  match resolveMatrices cat (obs.zip par) with
  | .error e => (.error e, d)
  | .ok mats =>
      match reshapeAll (mats.zip wires) with
      | .error e => (.error e, d)
      | .ok ts =>
          match reshapeAll ((mats.map (fun A => A.matMul A)).zip wires) with
          | .error e => (.error e, d)
          | .ok tsq =>
              let nodes := (createNodesFromTensors "observables" (zip3 ts wires obs) d).1
              let d1 := (createNodesFromTensors "observables" (zip3 ts wires obs) d).2
              let nodesSq :=
                (createNodesFromTensors "observables" (zip3 tsq wires obs) d1).1
              let d2 :=
                (createNodesFromTensors "observables" (zip3 tsq wires obs) d1).2
              match ev B nodesSq wires d2 with
              | (.error e, d3) => (.error e, d3)
              | (.ok v1, d3) =>
                  match ev B nodes wires d3 with
                  | (.error e, d4) => (.error e, d4)
                  | (.ok v2, d4) => (.ok (v1 - v2 ^ 2), d4)

/-- itertools.product over a list of lists, in Python's lexicographic order
(rightmost factor varies fastest). -/
def cartProd : List (List α) → List (List α)
  | [] => [[]]
  | xs :: rest => xs.flatMap (fun x => (cartProd rest).map (x :: ·))


/-- Modelled from the spec and the numpy documentation: np.random.choice(a,
size, p) draws size elements of a with the given probabilities, validating that
the probabilities are non-negative and sum to one (numpy allows a tiny float
tolerance there, which an exact integer model collapses to equality) without
renormalizing them; the randomness is an explicit index source rng. -/
def npChoice (outcomes : List ℤ) (shots : Nat) (p : List ℤ) (rng : Nat → Nat) :
    Except Err (List ℤ) :=
  if outcomes = [] then .error .valueErr
  else if p.length ≠ outcomes.length then .error .valueErr
  else if ¬ (∀ x ∈ p, 0 ≤ x) then .error .valueErr
  else if p.foldr (· + ·) 0 ≠ 1 then .error .valueErr
  else .ok ((List.range shots).map (fun i => outcomes.getD (rng i % outcomes.length) 0))

/-- The per-combination node construction inside sample's probability loop:
reshape each projector and register it under the "observables" key. -/
def buildProjNodes : List (CMat × List Nat) → Dev →
    Except Err (List Node × List (List Nat)) × Dev
  | [], d => (.ok ([], []), d)
  | (proj, ws) :: rest, d =>
      if proj.dim = 2 ^ ws.length then
        let nd :=
          (addNode ⟨List.replicate (2 * ws.length) 2, proj.data⟩ ws "UnnamedNode"
            "observables" d).1
        let d1 :=
          (addNode ⟨List.replicate (2 * ws.length) 2, proj.data⟩ ws "UnnamedNode"
            "observables" d).2
        match buildProjNodes rest d1 with
        | (.ok (nds, wss), d2) => (.ok (nd :: nds, ws :: wss), d2)
        | (.error e, d2) => (.error e, d2)
      else (.error .valueErr, d)

/-- sample's joint-probability loop: one ev call per projector combination. -/
def samplePrbLoop (B : TNBackend) :
    List (List (CMat × List Nat)) → Dev → Except Err (List ℤ) × Dev
  | [], d => (.ok [], d)
  | projs :: rest, d =>
      match buildProjNodes projs d with
      | (.error e, d1) => (.error e, d1)
      | (.ok (nds, wss), d1) =>
          match ev B nds wss d1 with
          | (.error e, d2) => (.error e, d2)
          | (.ok v, d2) =>
              match samplePrbLoop B rest d2 with
              | (.ok vs, d3) => (.ok (v :: vs), d3)
              | (.error e, d3) => (.error e, d3)

/-- Modelled from the spec: ops.spectral_decomposition (numpy_ops is not under
src/) yields, for an observable matrix, its eigenvalues with the matching
orthogonal projectors; the pairing carries the eigenvalue-projector
correspondence the spec describes. -/
def SpecDecomp := CMat → List (ℤ × CMat)

/-- DefaultTensor.sample (list form): spectral decompositions, lexicographic
Cartesian products of eigenvalues and of projectors, one joint probability per
projector combination via ev, outcome values as eigenvalue products, and a
finite random draw with the unrenormalized probabilities. -/
def sample (cat : Catalog) (B : TNBackend) (sd : SpecDecomp) (rng : Nat → Nat)
    (obs : List String) (wires : List (List Nat)) (par : List (List PVal))
    (d : Dev) : Except Err (List ℤ) × Dev :=
  match resolveMatrices cat (obs.zip par) with
  | .error e => (.error e, d)
  | .ok mats =>
      let decs := mats.map sd
      let eigenvalues := decs.map (List.map Prod.fst)
      let projGroups := decs.map (List.map Prod.snd)
      let projectorsWithWires :=
        (projGroups.zip wires).map (fun gw => gw.1.map (fun p => (p, gw.2)))
      let jointOutcomes := cartProd eigenvalues
      let projTensorProducts := cartProd projectorsWithWires
      match samplePrbLoop B projTensorProducts d with
      | (.error e, d1) => (.error e, d1)
      | (.ok probs, d1) =>
          (npChoice (jointOutcomes.map prodZ) d.shots probs rng, d1)

/-!  Concrete instances used to evaluate the model on the claims' scenarios. -/

instance : Neg CQ := ⟨fun a => ⟨-a.re, -a.im⟩⟩

/-- Modelled from the spec: the fixed PauliX matrix of the gate catalog. -/
def Xmat : CMat := ⟨2, [0, 1, 1, 0]⟩

/-- Modelled from the spec: the fixed PauliZ matrix of the gate catalog. -/
def Zmat : CMat := ⟨2, [1, 0, 0, -1]⟩

/-- Modelled from the spec: the fixed Identity matrix of the catalog. -/
def Imat : CMat := ⟨2, [1, 0, 0, 1]⟩

/-- Modelled from the spec: the fixed CNOT matrix of the gate catalog. -/
def CNOTmat : CMat := ⟨4, [1,0,0,0, 0,1,0,0, 0,0,0,1, 0,0,1,0]⟩

/-- The projector onto the PauliZ eigenvalue +1 eigenspace. -/
def P0mat : CMat := ⟨2, [1, 0, 0, 0]⟩

/-- The projector onto the PauliZ eigenvalue -1 eigenspace. -/
def P1mat : CMat := ⟨2, [0, 0, 0, 1]⟩

/-- A concrete catalog instance resolving the names the claims exercise. -/
def cat0 : Catalog := fun op _par =>
  if op = "PauliX" then Xmat
  else if op = "PauliZ" then Zmat
  else if op = "CNOT" then CNOTmat
  else Imat

/-- A concrete backend instance (the structural claims hold for every
backend; this one makes concrete runs evaluable). -/
def B0 : TNBackend :=
  ⟨fun t => (t, t), fun _ t => t, fun _ t1 t2 => (t1, t2),
   fun _ => ⟨[2], [1, 0]⟩, fun _ _ => 1⟩

/-- A concrete spectral decomposition instance: PauliZ as its two eigenvalue /
projector pairs. -/
def sd0 : SpecDecomp := fun _ => [(1, P0mat), (-1, P1mat)]

/-- A bare 3-wire MPS-mode device value used to instantiate theorems with
hypotheses on concrete inputs. -/
def devMps3 : Dev := ⟨3, 5, "mps", "auto", [], [], [], none, none, [], 0⟩

/-- The premeasurement tensor a measurement at state d consumes: the cached
contracted state if present, otherwise the contraction the cache would be
filled with. -/
def premeasTensor (B : TNBackend) (d : Dev) : Option QTensor :=
  match d.contracted with
  | some t => some t
  | none =>
      if d.rep = "exact" then
        if d.contraction_method ∈ contract_fns_names then
          exactNetworkState d.num_wires d.nodes_state
        else none
      else if d.rep = "mps" then
        d.mps.map (fun ch => (B.mpsContract (ch.map Prod.snd)).squeeze)
      else none

/-- The value DefaultTensor.ev returns at state d for the given observable
tensors and wire groups, as a pure function of the state (none when ev
raises). -/
def evValue (B : TNBackend) (d : Dev) (obs : List (QTensor × List Nat)) :
    Option ℤ :=
  if d.rep = "exact" then
    (premeasTensor B d).map (fun psi => (evExactVal d.num_wires psi obs).re)
  else if d.rep = "mps" then
    if (∃ ws ∈ obs.map Prod.snd, ws.length > 2) ∨
       (∃ ws ∈ obs.map Prod.snd, ws.length = 2 ∧
          ((ws.getD 1 0 : Int) - (ws.getD 0 0 : Int)).natAbs > 1) then none
    else d.mps.map (fun ch => (B.mpsEv (ch.map Prod.snd) obs).re)
  else none

/-- An edge is dangling when tn.connect has never been called on it. -/
def dangling (d : Dev) (e : EdgeId) : Prop := e ∉ d.connected

/-- The wire-edge-table invariant of the spec: one entry per wire, no entry
duplicated, every entry a currently-dangling edge. -/
def WireTableInv (d : Dev) : Prop :=
  d.free_wire_edges.length = d.num_wires ∧
  d.free_wire_edges.Nodup ∧
  ∀ e ∈ d.free_wire_edges, dangling d e

/-- Bookkeeping soundness carried through the induction: every live edge
serial is below the allocation counter, and in MPS representation the chain
has one node per wire. -/
def SerialInv (d : Dev) : Prop :=
  (∀ e ∈ d.free_wire_edges, e.1 < d.nextSerial) ∧
  (∀ e ∈ d.connected, e.1 < d.nextSerial) ∧
  (d.rep = "mps" → ∀ chain, d.mps = some chain → chain.length = d.num_wires)

/-- The full induction invariant: wire-edge-table soundness, serial-counter
soundness, and a valid representation string. -/
def DevInv (d : Dev) : Prop :=
  WireTableInv d ∧ SerialInv d ∧ (d.rep = "exact" ∨ d.rep = "mps")

/-- The lexicographic eigenvalue/projector combinations of sample: one
spectral-decomposition entry per observable, in itertools.product order. -/
def sampleCombos (sd : SpecDecomp) (mats : List CMat) : List (List (ℤ × CMat)) :=
  cartProd (mats.map sd)

/-- The joint outcome value of one combination: the product of its matched
eigenvalues. -/
def comboOutcome (c : List (ℤ × CMat)) : ℤ := prodZ (c.map Prod.fst)

/-- The projector/wire-group pairs of one combination. -/
def projsOfCombo (c : List (ℤ × CMat)) (wires : List (List Nat)) :
    List (CMat × List Nat) :=
  (c.zip wires).map (fun pw => (pw.1.2, pw.2))

/-- The reshaped observable tensors the expectation machinery receives for one
combination. -/
def comboObs (c : List (ℤ × CMat)) (wires : List (List Nat)) :
    List (QTensor × List Nat) :=
  (projsOfCombo c wires).map (fun pw =>
    (⟨List.replicate (2 * pw.2.length) 2, pw.1.data⟩, pw.2))

/-- One operation of a device usage trace (the mutating entry points). -/
inductive TOp where
  | reset
  | app (op : String) (wires : List Nat) (par : List PVal)

/-- Run one trace operation. -/
def stepOp (cat : Catalog) (B : TNBackend) : TOp → Dev → Except Err Unit × Dev
  | .reset, d => resetDev B d
  | .app op ws par, d => apply cat B op ws par d

/-- Run a trace, requiring every operation to succeed. -/
def runTrace (cat : Catalog) (B : TNBackend) : List TOp → Dev → Option Dev
  | [], d => some d
  | t :: ts, d =>
      match stepOp cat B t d with
      | (.ok _, d1) => runTrace cat B ts d1
      | (.error _, _) => none

end DT

namespace DT

/-!  ## Helper lemmas -/

theorem zip3_proj_len :
    ∀ (ts : List QTensor) (ws : List (List Nat)) (ns : List String),
      ts.length = ws.length → ws.length = ns.length →
      (zip3 ts ws ns).map (fun it => it.2.1.length) = ws.map List.length := by
  intro ts
  induction ts with
  | nil =>
    intro ws ns h1 _
    cases ws with
    | nil => rfl
    | cons w ws' => simp at h1
  | cons t ts ih =>
    intro ws ns h1 h2
    cases ws with
    | nil => simp at h1
    | cons w ws' =>
      cases ns with
      | nil => simp at h2
      | cons nm ns' =>
        simp only [zip3, List.zip_cons_cons, List.map_cons]
        have := ih ws' ns' (by simpa using h1) (by simpa using h2)
        simp only [zip3] at this
        rw [this]

theorem exactInitLoop_ok :
    ∀ (items : List (QTensor × List Nat × String)) (d : Dev),
      (∀ it ∈ items, it.1.rank = it.2.1.length) →
      ∃ d' F, exactInitLoop items d = (.ok (), d') ∧
        d'.free_wire_edges = d.free_wire_edges ++ F ∧
        F.length = (items.map (fun it => it.2.1.length)).sum ∧
        F.Nodup ∧
        (∀ e ∈ F, d.nextSerial ≤ e.1 ∧ e.1 < d'.nextSerial) ∧
        d.nextSerial ≤ d'.nextSerial ∧
        d'.connected = d.connected ∧
        d'.num_wires = d.num_wires ∧ d'.shots = d.shots ∧ d'.rep = d.rep ∧
        d'.contraction_method = d.contraction_method ∧
        d'.mps = d.mps ∧ d'.contracted = d.contracted ∧
        d'.nodes_observables = d.nodes_observables := by
  intro items
  induction items with
  | nil =>
    intro d _
    exact ⟨d, [], rfl, by simp, by simp, by simp, by simp, Nat.le_refl _,
      rfl, rfl, rfl, rfl, rfl, rfl, rfl, rfl⟩
  | cons it rest ih =>
    intro d hr
    obtain ⟨t, ws, nm⟩ := it
    have hrt : t.rank = ws.length := hr _ (List.mem_cons_self _ _)
    have hrest : ∀ it ∈ rest, it.1.rank = it.2.1.length :=
      fun it h => hr it (List.mem_cons_of_mem _ h)
    set d1 := (addNode t ws nm "state" d).2 with hd1
    set d2 := { d1 with free_wire_edges :=
      d1.free_wire_edges ++ (addNode t ws nm "state" d).1.edges } with hd2
    obtain ⟨d', F', hrun, hfree, hlen, hnd, hser, hmon, hconn, hnw, hsh,
      hrep, hcm, hmps, hctr, hobs⟩ := ih d2 hrest
    refine ⟨d', (addNode t ws nm "state" d).1.edges ++ F', ?_, ?_, ?_, ?_, ?_, ?_,
      ?_, ?_, ?_, ?_, ?_, ?_, ?_, ?_⟩
    · simp only [exactInitLoop]
      rw [if_neg (by simp [hrt])]
      exact hrun
    · rw [hfree]
      simp [hd2, hd1, addNode, List.append_assoc]
    · have hel : (addNode t ws nm "state" d).1.edges.length = ws.length := by
        simp [addNode, Node.edges, QTensor.rank] at hrt ⊢
        exact hrt
      simp [hel, hlen]
    · apply List.Nodup.append
      · simp only [addNode, Node.edges]
        exact (List.nodup_range _).map (fun a b h => by simpa using h)
      · exact hnd
      · intro e he he'
        have h1 : e.1 = d.nextSerial := by
          simp only [addNode, Node.edges, List.mem_map] at he
          obtain ⟨ax, _, hax⟩ := he
          simp [← hax]
        have h2 : d2.nextSerial ≤ e.1 := (hser e he').1
        have : d2.nextSerial = d.nextSerial + 1 := by simp [hd2, hd1, addNode]
        omega
    · intro e he
      rcases List.mem_append.1 he with h | h
      · have h1 : e.1 = d.nextSerial := by
          simp only [addNode, Node.edges, List.mem_map] at h
          obtain ⟨ax, _, hax⟩ := h
          simp [← hax]
        have : d2.nextSerial = d.nextSerial + 1 := by simp [hd2, hd1, addNode]
        omega
      · have h2 := hser e h
        have : d2.nextSerial = d.nextSerial + 1 := by simp [hd2, hd1, addNode]
        omega
    · have : d2.nextSerial = d.nextSerial + 1 := by simp [hd2, hd1, addNode]
      omega
    · rw [hconn]; simp [hd2, hd1, addNode]
    · rw [hnw]; simp [hd2, hd1, addNode]
    · rw [hsh]; simp [hd2, hd1, addNode]
    · rw [hrep]; simp [hd2, hd1, addNode]
    · rw [hcm]; simp [hd2, hd1, addNode]
    · rw [hmps]; simp [hd2, hd1, addNode]
    · rw [hctr]; simp [hd2, hd1, addNode]
    · rw [hobs]; simp [hd2, hd1, addNode]

theorem mpsSplitLoop_ok (B : TNBackend) (nm : String) :
    ∀ (ws : List Nat) (dv : QTensor) (d : Dev), ws ≠ [] →
      (mpsSplitLoop B nm ws dv d).1.length = ws.length ∧
      ((mpsSplitLoop B nm ws dv d).1.map Prod.fst).Nodup ∧
      (∀ c ∈ (mpsSplitLoop B nm ws dv d).1,
         d.nextSerial ≤ c.1 ∧ c.1 < (mpsSplitLoop B nm ws dv d).2.nextSerial) ∧
      d.nextSerial ≤ (mpsSplitLoop B nm ws dv d).2.nextSerial ∧
      (mpsSplitLoop B nm ws dv d).2.connected = d.connected ∧
      (mpsSplitLoop B nm ws dv d).2.num_wires = d.num_wires ∧
      (mpsSplitLoop B nm ws dv d).2.shots = d.shots ∧
      (mpsSplitLoop B nm ws dv d).2.rep = d.rep ∧
      (mpsSplitLoop B nm ws dv d).2.contraction_method = d.contraction_method ∧
      (mpsSplitLoop B nm ws dv d).2.mps = d.mps ∧
      (mpsSplitLoop B nm ws dv d).2.contracted = d.contracted ∧
      (mpsSplitLoop B nm ws dv d).2.free_wire_edges = d.free_wire_edges ∧
      (mpsSplitLoop B nm ws dv d).2.nodes_observables = d.nodes_observables := by
  intro ws
  induction ws with
  | nil => intro dv d h; exact absurd rfl h
  | cons w tail ih =>
    intro dv d _
    cases tail with
    | nil =>
      have h1 : (mpsSplitLoop B nm [w] dv d).1
          = [((addNode dv [w] nm "state" d).1.serial, dv)] := rfl
      have h2 : (mpsSplitLoop B nm [w] dv d).2 = (addNode dv [w] nm "state" d).2 := rfl
      have hs : (addNode dv [w] nm "state" d).1.serial = d.nextSerial := by
        simp [addNode]
      have hn : (addNode dv [w] nm "state" d).2.nextSerial = d.nextSerial + 1 := by
        simp [addNode]
      refine ⟨by rw [h1]; rfl, by rw [h1]; simp, ?_, ?_, ?_, ?_, ?_, ?_, ?_, ?_, ?_, ?_, ?_⟩
      · intro c hc
        rw [h1] at hc
        simp only [List.mem_singleton] at hc
        rw [h2, hn, hc]
        simp only [hs]
        omega
      · rw [h2, hn]; omega
      · rw [h2]; simp [addNode]
      · rw [h2]; simp [addNode]
      · rw [h2]; simp [addNode]
      · rw [h2]; simp [addNode]
      · rw [h2]; simp [addNode]
      · rw [h2]; simp [addNode]
      · rw [h2]; simp [addNode]
      · rw [h2]; simp [addNode]
      · rw [h2]; simp [addNode]
    | cons w' rest =>
      have hne : w' :: rest ≠ ([] : List Nat) := by simp
      obtain ⟨ihlen, ihnd, ihser, ihmon, ihconn, ihnw, ihsh, ihrep, ihcm,
        ihmps, ihctr, ihfree, ihobs⟩ :=
        ih (B.splitNode dv).2
          (addNode (B.splitNode dv).1 [w] nm "state" d).2 hne
      have h1 : (mpsSplitLoop B nm (w :: w' :: rest) dv d).1
          = ((addNode (B.splitNode dv).1 [w] nm "state" d).1.serial, (B.splitNode dv).1)
            :: (mpsSplitLoop B nm (w' :: rest) (B.splitNode dv).2
                 (addNode (B.splitNode dv).1 [w] nm "state" d).2).1 := rfl
      have h2 : (mpsSplitLoop B nm (w :: w' :: rest) dv d).2
          = (mpsSplitLoop B nm (w' :: rest) (B.splitNode dv).2
              (addNode (B.splitNode dv).1 [w] nm "state" d).2).2 := rfl
      have hs : (addNode (B.splitNode dv).1 [w] nm "state" d).1.serial
          = d.nextSerial := by simp [addNode]
      have hn : (addNode (B.splitNode dv).1 [w] nm "state" d).2.nextSerial
          = d.nextSerial + 1 := by simp [addNode]
      refine ⟨?_, ?_, ?_, ?_, ?_, ?_, ?_, ?_, ?_, ?_, ?_, ?_, ?_⟩
      · rw [h1]; simp only [List.length_cons, ihlen]
      · rw [h1]
        simp only [List.map_cons, List.nodup_cons]
        refine ⟨?_, ihnd⟩
        intro hmem
        simp only [List.mem_map] at hmem
        obtain ⟨c, hc, hcs⟩ := hmem
        have := (ihser c hc).1
        omega
      · intro c hc
        rw [h1] at hc
        rw [h2]
        simp only [List.mem_cons] at hc
        rcases hc with hc | hc
        · subst hc
          simp only [hs]
          constructor
          · omega
          · have := ihmon
            omega
        · have := ihser c hc
          omega
      · rw [h2]; omega
      · rw [h2, ihconn]; simp [addNode]
      · rw [h2, ihnw]; simp [addNode]
      · rw [h2, ihsh]; simp [addNode]
      · rw [h2, ihrep]; simp [addNode]
      · rw [h2, ihcm]; simp [addNode]
      · rw [h2, ihmps]; simp [addNode]
      · rw [h2, ihctr]; simp [addNode]
      · rw [h2, ihfree]; simp [addNode]
      · rw [h2, ihobs]; simp [addNode]

theorem mpsInitLoop_ok (B : TNBackend) :
    ∀ (items : List (QTensor × List Nat × String)) (acc : List ChainNode) (d : Dev),
      (∀ it ∈ items, it.1.rank = it.2.1.length ∧
        (it.1.shape = [2] ∨
          (it.2.1 ≠ [] ∧ maxL it.2.1 - minL it.2.1 = it.2.1.length - 1))) →
      ∃ C d', mpsInitLoop B items acc d = (.ok (acc ++ C), d') ∧
        C.length = (items.map (fun it => it.2.1.length)).sum ∧
        (C.map Prod.fst).Nodup ∧
        (∀ c ∈ C, d.nextSerial ≤ c.1 ∧ c.1 < d'.nextSerial) ∧
        d.nextSerial ≤ d'.nextSerial ∧
        d'.connected = d.connected ∧
        d'.num_wires = d.num_wires ∧ d'.shots = d.shots ∧ d'.rep = d.rep ∧
        d'.contraction_method = d.contraction_method ∧
        d'.mps = d.mps ∧ d'.contracted = d.contracted ∧
        d'.free_wire_edges = d.free_wire_edges ∧
        d'.nodes_observables = d.nodes_observables := by
  intro items
  induction items with
  | nil =>
    intro acc d _
    exact ⟨[], d, by simp [mpsInitLoop], by simp, by simp, by simp,
      Nat.le_refl _, rfl, rfl, rfl, rfl, rfl, rfl, rfl, rfl, rfl⟩
  | cons it rest ih =>
    intro acc d hit
    obtain ⟨t, ws, nm⟩ := it
    have hrank : t.rank = ws.length := (hit _ (List.mem_cons_self _ _)).1
    have hshape := (hit _ (List.mem_cons_self _ _)).2
    have hrest : ∀ it ∈ rest, it.1.rank = it.2.1.length ∧
        (it.1.shape = [2] ∨
          (it.2.1 ≠ [] ∧ maxL it.2.1 - minL it.2.1 = it.2.1.length - 1)) :=
      fun it h => hit it (List.mem_cons_of_mem _ h)
    by_cases h2 : t.shape = [2]
    · -- the (1, 2, 1) single-wire branch
      have h121 : (t.expandFront.expandBack).shape = [1, 2, 1] := by
        simp [QTensor.expandFront, QTensor.expandBack, h2]
      have hws1 : ws.length = 1 := by
        rw [← hrank]; simp [QTensor.rank, h2]
      have hstep : mpsInitLoop B ((t, ws, nm) :: rest) acc d
          = mpsInitLoop B rest
              (acc ++ [((addNode t.expandFront.expandBack ws nm "state" d).1.serial,
                 t.expandFront.expandBack)])
              (addNode t.expandFront.expandBack ws nm "state" d).2 := by
        simp only [mpsInitLoop]
        rw [if_neg (by simp [hrank]), if_pos h121]
      obtain ⟨C', d', hrun, hlen, hnd, hser, hmon, hconn, hnw, hsh, hrep, hcm,
        hmps, hctr, hfree, hobs⟩ :=
        ih (acc ++ [((addNode t.expandFront.expandBack ws nm "state" d).1.serial,
              t.expandFront.expandBack)])
           (addNode t.expandFront.expandBack ws nm "state" d).2 hrest
      have hs : (addNode t.expandFront.expandBack ws nm "state" d).1.serial
          = d.nextSerial := by simp [addNode]
      have hn : (addNode t.expandFront.expandBack ws nm "state" d).2.nextSerial
          = d.nextSerial + 1 := by simp [addNode]
      refine ⟨((addNode t.expandFront.expandBack ws nm "state" d).1.serial,
          t.expandFront.expandBack) :: C', d', ?_, ?_, ?_, ?_, ?_, ?_, ?_, ?_, ?_,
          ?_, ?_, ?_, ?_, ?_⟩
      · rw [hstep, hrun]
        simp
      · simp only [List.length_cons, List.map_cons, List.sum_cons, hlen, hws1]
        omega
      · simp only [List.map_cons, List.nodup_cons]
        refine ⟨?_, hnd⟩
        intro hmem
        simp only [List.mem_map] at hmem
        obtain ⟨c, hc, hcs⟩ := hmem
        have := (hser c hc).1
        omega
      · intro c hc
        simp only [List.mem_cons] at hc
        rcases hc with hc | hc
        · subst hc
          simp only [hs]
          exact ⟨Nat.le_refl _, by omega⟩
        · have := hser c hc
          omega
      · omega
      · rw [hconn]; simp [addNode]
      · rw [hnw]; simp [addNode]
      · rw [hsh]; simp [addNode]
      · rw [hrep]; simp [addNode]
      · rw [hcm]; simp [addNode]
      · rw [hmps]; simp [addNode]
      · rw [hctr]; simp [addNode]
      · rw [hfree]; simp [addNode]
      · rw [hobs]; simp [addNode]
    · -- the SVD-decomposition branch
      have hcontig : ws ≠ [] ∧ maxL ws - minL ws = ws.length - 1 := by
        rcases hshape with h | h
        · exact absurd h h2
        · exact h
      have h121 : ¬ (t.expandFront.expandBack).shape = [1, 2, 1] := by
        intro hh
        apply h2
        simp only [QTensor.expandFront, QTensor.expandBack] at hh
        have hlen := congrArg List.length hh
        simp only [List.length_cons, List.length_append, List.length_singleton] at hlen
        cases ht : t.shape with
        | nil => rw [ht] at hlen; simp at hlen
        | cons a tl =>
          cases tl with
          | nil =>
            rw [ht] at hh
            simp at hh
            simp [ht, hh]
          | cons b tl2 => rw [ht] at hlen; simp at hlen
      have hstep : mpsInitLoop B ((t, ws, nm) :: rest) acc d
          = mpsInitLoop B rest
              (acc ++ (mpsSplitLoop B nm ws t.expandFront.expandBack d).1)
              (mpsSplitLoop B nm ws t.expandFront.expandBack d).2 := by
        simp only [mpsInitLoop]
        rw [if_neg (by simp [hrank]), if_neg h121, if_neg hcontig.1,
          if_neg (by simp [hcontig.2])]
      obtain ⟨slen, snd, sser, smon, sconn, snw, ssh, srep, scm, smps, sctr,
        sfree, sobs⟩ := mpsSplitLoop_ok B nm ws t.expandFront.expandBack d hcontig.1
      obtain ⟨C', d', hrun, hlen, hnd, hser, hmon, hconn, hnw, hsh, hrep, hcm,
        hmps, hctr, hfree, hobs⟩ :=
        ih (acc ++ (mpsSplitLoop B nm ws t.expandFront.expandBack d).1)
           (mpsSplitLoop B nm ws t.expandFront.expandBack d).2 hrest
      refine ⟨(mpsSplitLoop B nm ws t.expandFront.expandBack d).1 ++ C', d', ?_,
          ?_, ?_, ?_, ?_, ?_, ?_, ?_, ?_, ?_, ?_, ?_, ?_, ?_⟩
      · rw [hstep, hrun]
        simp
      · simp only [List.length_append, List.map_cons, List.sum_cons, hlen, slen]
      · rw [List.map_append]
        apply List.Nodup.append snd hnd
        intro a ha ha'
        simp only [List.mem_map] at ha ha'
        obtain ⟨c, hc, hcs⟩ := ha
        obtain ⟨c', hc', hcs'⟩ := ha'
        have hu := (sser c hc).2
        have hv := (hser c' hc').1
        omega
      · intro c hc
        rcases List.mem_append.1 hc with hc | hc
        · have := sser c hc
          omega
        · have := hser c hc
          omega
      · omega
      · rw [hconn, sconn]
      · rw [hnw, snw]
      · rw [hsh, ssh]
      · rw [hrep, srep]
      · rw [hcm, scm]
      · rw [hmps, smps]
      · rw [hctr, sctr]
      · rw [hfree, sfree]
      · rw [hobs, sobs]

theorem addInitialStateNodes_ok (B : TNBackend) (ts : List QTensor)
    (ws : List (List Nat)) (ns : List String) (d : Dev)
    (h1 : ts.length = ws.length) (h2 : ws.length = ns.length)
    (hitems : ∀ it ∈ zip3 ts ws ns, it.1.rank = it.2.1.length ∧
       (d.rep = "mps" → it.1.shape = [2] ∨
         (it.2.1 ≠ [] ∧ maxL it.2.1 - minL it.2.1 = it.2.1.length - 1)))
    (hrep : d.rep = "exact" ∨ d.rep = "mps") :
    ∃ d', addInitialStateNodes B ts ws ns d = (.ok (), d') ∧
      d'.free_wire_edges.length = (ws.map List.length).sum ∧
      d'.free_wire_edges.Nodup ∧
      (∀ e ∈ d'.free_wire_edges, d.nextSerial ≤ e.1 ∧ e.1 < d'.nextSerial) ∧
      d.nextSerial ≤ d'.nextSerial ∧
      d'.connected = d.connected ∧
      d'.num_wires = d.num_wires ∧ d'.shots = d.shots ∧ d'.rep = d.rep ∧
      d'.contraction_method = d.contraction_method ∧
      d'.contracted = d.contracted ∧
      d'.nodes_observables = d.nodes_observables ∧
      (d.rep = "exact" → d'.mps = d.mps) ∧
      (d.rep = "mps" → ∃ ch, d'.mps = some ch ∧
        ch.length = (ws.map List.length).sum ∧
        d'.free_wire_edges = ch.map (fun c => (c.1, 1)) ∧
        (∀ c ∈ ch, c.1 < d'.nextSerial)) := by
  have hsum := zip3_proj_len ts ws ns h1 h2
  rcases hrep with hexact | hmps
  · have hrank : ∀ it ∈ zip3 ts ws ns, it.1.rank = it.2.1.length :=
      fun it h => (hitems it h).1
    obtain ⟨d', F, hrun, hfree, hlen, hnd, hser, hmon, hconn, hnw, hsh, hrep',
      hcm, hmpsu, hctr, hobs⟩ :=
      exactInitLoop_ok (zip3 ts ws ns) { d with free_wire_edges := [] } hrank
    refine ⟨d', ?_, ?_, ?_, ?_, ?_, ?_, ?_, ?_, ?_, ?_, ?_, ?_, ?_, ?_⟩
    · unfold addInitialStateNodes
      rw [if_neg (not_not_intro ⟨h1, h2⟩), if_pos hexact]
      exact hrun
    · rw [hfree]; simp only [List.nil_append, hlen, hsum]
    · rw [hfree]; simpa using hnd
    · intro e he
      rw [hfree] at he
      simp only [List.nil_append] at he
      simpa using hser e he
    · simpa using hmon
    · simpa using hconn
    · simpa using hnw
    · simpa using hsh
    · simpa using hrep'
    · simpa using hcm
    · simpa using hctr
    · simpa using hobs
    · intro _; simpa using hmpsu
    · intro hm; rw [hexact] at hm; exact absurd hm (by decide)
  · obtain ⟨C, d1, hrun, hlen, hnd, hser, hmon, hconn, hnw, hsh, hrep', hcm,
      hmpsu, hctr, hfree, hobs⟩ := mpsInitLoop_ok B (zip3 ts ws ns) [] d
        (fun it h => ⟨(hitems it h).1, (hitems it h).2 hmps⟩)
    have hne : ¬ d.rep = "exact" := by rw [hmps]; decide
    refine ⟨{ d1 with
        mps := some C
        free_wire_edges := C.map (fun c => (c.1, 1)) }, ?_, ?_, ?_, ?_, ?_, ?_,
        ?_, ?_, ?_, ?_, ?_, ?_, ?_, ?_⟩
    · unfold addInitialStateNodes
      rw [if_neg (not_not_intro ⟨h1, h2⟩), if_neg hne, if_pos hmps, hrun]
      simp
    · simp only [List.length_map, hlen, hsum]
    · have hmm : (C.map (fun c => ((c.1, 1) : EdgeId)))
          = (C.map Prod.fst).map (fun s => (s, 1)) := by
        simp [List.map_map, Function.comp_def]
      rw [hmm]
      exact List.Nodup.map (fun a b h => by simpa using h) hnd
    · intro e he
      simp only [List.mem_map] at he
      obtain ⟨c, hc, he⟩ := he
      rw [← he]
      exact hser c hc
    · exact hmon
    · exact hconn
    · exact hnw
    · exact hsh
    · exact hrep'
    · exact hcm
    · exact hctr
    · exact hobs
    · intro hx; rw [hmps] at hx; exact absurd hx (by decide)
    · intro _
      exact ⟨C, rfl, by simp only [hlen, hsum], rfl,
        fun c hc => (hser c hc).2⟩

theorem sum_singleton_groups (n : Nat) :
    (((List.range n).map (fun w => [w])).map List.length).sum = n := by
  rw [List.map_map]
  have h : (List.length ∘ fun (w : Nat) => [w]) = fun _ => 1 := by
    funext w; rfl
  rw [h, List.map_const', List.sum_replicate, List.length_range, smul_eq_mul,
    Nat.mul_one]

/-- Membership characterization of the per-wire component lists used by reset
and BasisState preparation. -/
theorem zip3_singleton_mem (n : Nat) (ts : List QTensor) (nm : String)
    (hts : ∀ t ∈ ts, t.shape = [2]) (hlen : ts.length = n) :
    ∀ it ∈ zip3 ts ((List.range n).map (fun w => [w])) (List.replicate n nm),
      it.1.rank = it.2.1.length ∧ (it.1.shape = [2] ∨
        (it.2.1 ≠ [] ∧ maxL it.2.1 - minL it.2.1 = it.2.1.length - 1)) := by
  intro it hit
  obtain ⟨t, ws, s⟩ := it
  simp only [zip3] at hit
  have h1 := List.of_mem_zip hit
  have h2 := List.of_mem_zip h1.2
  have ht : t.shape = [2] := hts t h1.1
  have hw : ∃ w, ws = [w] := by
    have := h2.1
    simp only [List.mem_map] at this
    obtain ⟨w, _, hww⟩ := this
    exact ⟨w, hww.symm⟩
  obtain ⟨w, hww⟩ := hw
  subst hww
  exact ⟨by simp [QTensor.rank, ht], Or.inl ht⟩

theorem resetDev_inv (B : TNBackend) (d : Dev)
    (hrep : d.rep = "exact" ∨ d.rep = "mps")
    (hcb : ∀ e ∈ d.connected, e.1 < d.nextSerial) :
    ∃ d', resetDev B d = (.ok (), d') ∧ DevInv d' ∧
      d'.num_wires = d.num_wires ∧ d'.shots = d.shots ∧ d'.rep = d.rep ∧
      d'.contraction_method = d.contraction_method ∧ d'.contracted = none := by
  set dc := clearNetworkData d with hdc
  have hrepc : dc.rep = "exact" ∨ dc.rep = "mps" := by
    simpa [hdc, clearNetworkData] using hrep
  have hitems := zip3_singleton_mem d.num_wires
    (List.replicate d.num_wires zero_state) "ZeroState"
    (fun t ht => by rw [List.eq_of_mem_replicate ht]; rfl)
    (List.length_replicate _ _)
  obtain ⟨d', hrun, hflen, hfnd, hfser, hmon, hconn, hnw, hsh, hrep', hcm,
    hctr, hobs, hmpse, hmpsm⟩ :=
    addInitialStateNodes_ok B (List.replicate d.num_wires zero_state)
      ((List.range d.num_wires).map (fun w => [w]))
      (List.replicate d.num_wires "ZeroState") dc
      (by simp) (by simp)
      (fun it h => ⟨(hitems it h).1, fun _ => (hitems it h).2⟩) hrepc
  have hnwc : dc.num_wires = d.num_wires := rfl
  have hnsc : dc.nextSerial = d.nextSerial := rfl
  have hcnc : dc.connected = d.connected := rfl
  refine ⟨d', hrun, ⟨⟨?_, hfnd, ?_⟩, ⟨?_, ?_, ?_⟩, ?_⟩, ?_, ?_, ?_, ?_, ?_⟩
  · rw [hflen, sum_singleton_groups, hnw, hnwc]
  · intro e he
    have hb := hfser e he
    intro hc
    rw [hconn, hcnc] at hc
    have := hcb e hc
    rw [hnsc] at hb
    exact absurd hb.1 (by omega)
  · intro e he
    exact (hfser e he).2
  · intro e he
    rw [hconn, hcnc] at he
    have := hcb e he
    have := hmon
    rw [hnsc] at this
    omega
  · intro hm ch hch
    rcases hrepc with hx | hx
    · rw [hrep', hx] at hm; exact absurd hm (by decide)
    · obtain ⟨ch', hch', hchl, -, -⟩ := hmpsm hx
      rw [hch'] at hch
      cases hch
      rw [hchl, sum_singleton_groups, hnw]
      exact hnwc.symm
  · rw [hrep']; exact hrepc
  · rw [hnw, hnwc]
  · rw [hsh]; rfl
  · rw [hrep']; rfl
  · rw [hcm]; rfl
  · rw [hctr]; rfl

theorem dinit_inv (B : TNBackend) (n shots : Nat) (rep cm : String)
    (hrep : rep = "exact" ∨ rep = "mps") :
    ∃ d, dinit B n shots rep cm = .ok d ∧ DevInv d ∧
      d.num_wires = n ∧ d.shots = shots ∧ d.rep = rep ∧
      d.contraction_method = cm ∧ d.contracted = none := by
  have hne : ¬(rep ≠ "exact" ∧ rep ≠ "mps") := by
    rcases hrep with h | h <;> simp [h]
  obtain ⟨d', hrun, hinv, hnw, hsh, hrep', hcm, hctr⟩ :=
    resetDev_inv B ⟨n, shots, rep, cm, [], [], [], none, none, [], 0⟩
      hrep (by intro e he; cases he)
  refine ⟨d', ?_, hinv, hnw, hsh, hrep', hcm, hctr⟩
  unfold dinit
  rw [if_neg hne, hrun]

/-!  ## Claims -/

/-- C5 counterexample: constructing a device with the unknown
contraction-strategy name "bogus" is not rejected with InvalidConfig;
construction succeeds and stores the name. -/
theorem C5_counterexample :
    (dinit B0 2 1000 "exact" "bogus").toOption.map Dev.contraction_method
      = some "bogus" := by decide

/-- C5 (amended): assigning a contraction-strategy name outside
greedy/branch/optimal/auto through the setter raises InvalidConfig and leaves
the device, in particular the previously configured strategy, unchanged; the
constructor, however, stores an unknown strategy name without any validation
(construction succeeds for both representations), and the bad name surfaces
only as a strategy-lookup error at the first exact-mode contraction. -/
theorem C5_setter_validates_constructor_does_not (d : Dev) (m : String)
    (hm : m ∉ contract_fns_names) :
    setContractionMethod m d = (.error .invalidConfig, d) ∧
    (∀ (B : TNBackend) (n s : Nat) (rep : String), rep = "exact" ∨ rep = "mps" →
       ∃ d0, dinit B n s rep m = .ok d0 ∧ d0.contraction_method = m) ∧
    (∀ (B : TNBackend), d.rep = "exact" → d.contraction_method = m →
       d.contracted = none →
       contractPremeasurement B d = (.error .keyError, d)) := by
  refine ⟨?_, ?_, ?_⟩
  · unfold setContractionMethod
    rw [if_pos hm]
  · intro B n s rep hrep
    obtain ⟨d0, hrun, -, -, -, -, hcm, -⟩ := dinit_inv B n s rep m hrep
    exact ⟨d0, hrun, hcm⟩
  · intro B hrep hcm hctr
    unfold contractPremeasurement
    rw [hctr, hcm]
    simp [hrep, hm]

/-- Witness for C5: the amended statement at a concrete device and the
strategy name "bogus". -/
theorem C5_witness :
    "bogus" ∉ contract_fns_names ∧
    (setContractionMethod "bogus"
        ⟨1, 3, "exact", "auto", [], [], [], none, none, [], 0⟩
      = (.error .invalidConfig,
          ⟨1, 3, "exact", "auto", [], [], [], none, none, [], 0⟩) ∧
     (∀ (B : TNBackend) (n s : Nat) (rep : String), rep = "exact" ∨ rep = "mps" →
        ∃ d0, dinit B n s rep "bogus" = .ok d0 ∧ d0.contraction_method = "bogus") ∧
     (∀ (B : TNBackend),
        Dev.rep ⟨1, 3, "exact", "auto", [], [], [], none, none, [], 0⟩ = "exact" →
        Dev.contraction_method ⟨1, 3, "exact", "auto", [], [], [], none, none, [], 0⟩
          = "bogus" →
        Dev.contracted ⟨1, 3, "exact", "auto", [], [], [], none, none, [], 0⟩ = none →
        contractPremeasurement B ⟨1, 3, "exact", "auto", [], [], [], none, none, [], 0⟩
          = (.error .keyError,
             ⟨1, 3, "exact", "auto", [], [], [], none, none, [], 0⟩))) :=
  ⟨by decide,
   C5_setter_validates_constructor_does_not
     ⟨1, 3, "exact", "auto", [], [], [], none, none, [], 0⟩ "bogus" (by decide)⟩

/-- C4 counterexample: applying QubitStateVector with the empty wire list on a
1-wire device succeeds (with a valid length-2 state vector), although the
empty list is not [0, ..., num_wires-1]; so not every other wire subset fails
with InvalidWires. -/
theorem C4_counterexample :
    ((dinit B0 1 3 "exact" "auto").toOption.map (fun d =>
        ((apply cat0 B0 "QubitStateVector" [] [.vec [1, 0]] d).1,
          decide (([] : List Nat) = List.range d.num_wires))))
      = some (.ok (), false) := by decide

/-- C4 (amended): a BasisState / QubitStateVector application validates its
wire list against the whole system, but treats the empty list like the full
list: a wire list that is neither empty nor exactly [0, ..., num_wires-1]
raises InvalidWires with the device unchanged, while an empty or full wire
list is accepted, and every accepted application first clears the entire
existing network and re-runs state preparation on the cleared device. -/
theorem C4_prep_wire_validation (cat : Catalog) (B : TNBackend) (op : String)
    (wires : List Nat) (par : List PVal) (d : Dev)
    (hop : op = "QubitStateVector" ∨ op = "BasisState") :
    (wires ≠ [] → wires ≠ List.range d.num_wires →
       apply cat B op wires par d = (.error .invalidWires, d)) ∧
    (wires = [] ∨ wires = List.range d.num_wires →
       apply cat B op wires par d
         = addStatePrepNodes B op par (clearNetworkData d)) := by
  constructor
  · intro h1 h2
    unfold apply
    rw [if_pos hop, if_pos ⟨h1, h2⟩]
  · intro h
    unfold apply
    rw [if_pos hop, if_neg ?_]
    rcases h with h | h
    · intro hc; exact hc.1 h
    · intro hc; exact hc.2 h

/-- Witness for C4 (amended): a 2-wire device rejects the wire list [1] with
InvalidWires and accepts the full list [0, 1]. -/
theorem C4_witness :
    ("QubitStateVector" = "QubitStateVector" ∨ "QubitStateVector" = "BasisState") ∧
    ((([1] : List Nat) ≠ [] →
        [1] ≠ List.range
          (Dev.num_wires ⟨2, 3, "exact", "auto", [], [], [], none, none, [], 0⟩) →
        apply cat0 B0 "QubitStateVector" [1] [.vec [1, 0, 0, 0]]
            ⟨2, 3, "exact", "auto", [], [], [], none, none, [], 0⟩
          = (.error .invalidWires,
             ⟨2, 3, "exact", "auto", [], [], [], none, none, [], 0⟩)) ∧
     (([1] : List Nat) = [] ∨
        [1] = List.range
          (Dev.num_wires ⟨2, 3, "exact", "auto", [], [], [], none, none, [], 0⟩) →
        apply cat0 B0 "QubitStateVector" [1] [.vec [1, 0, 0, 0]]
            ⟨2, 3, "exact", "auto", [], [], [], none, none, [], 0⟩
          = addStatePrepNodes B0 "QubitStateVector" [.vec [1, 0, 0, 0]]
              (clearNetworkData ⟨2, 3, "exact", "auto", [], [], [], none, none, [], 0⟩))) :=
  ⟨by decide,
   C4_prep_wire_validation cat0 B0 "QubitStateVector" [1] [.vec [1, 0, 0, 0]]
     ⟨2, 3, "exact", "auto", [], [], [], none, none, [], 0⟩ (by decide)⟩

theorem basisTensorsGo_none (bs : List Nat) :
    ∀ l : List Nat, (∃ w ∈ l, bs.length ≤ w) → basisTensorsGo bs l = none := by
  intro l
  induction l with
  | nil => rintro ⟨w, hw, -⟩; cases hw
  | cons a rest ih =>
    rintro ⟨w, hw, hlen⟩
    simp only [List.mem_cons] at hw
    unfold basisTensorsGo
    rcases hw with rfl | hw
    · rw [List.get?_eq_none.2 hlen]
    · cases hget : bs.get? a with
      | none => rfl
      | some x => rw [ih ⟨w, hw, hlen⟩]; rfl

theorem basisTensorsGo_some (bs : List Nat) :
    ∀ l : List Nat, (∀ w ∈ l, w < bs.length) →
      ∃ ts, basisTensorsGo bs l = some ts ∧ ts.length = l.length ∧
        ∀ t ∈ ts, t.shape = [2] := by
  intro l
  induction l with
  | nil => intro _; exact ⟨[], rfl, rfl, by simp⟩
  | cons a rest ih =>
    intro h
    obtain ⟨ts, hts, hlen, hsh⟩ := ih (fun w hw => h w (List.mem_cons_of_mem _ hw))
    have ha : a < bs.length := h a (List.mem_cons_self _ _)
    cases hget : bs.get? a with
    | none =>
      have := List.get?_eq_none.1 hget
      omega
    | some x =>
      refine ⟨(if x = 0 then zero_state else one_state) :: ts, ?_, by simp [hlen], ?_⟩
      · unfold basisTensorsGo
        rw [hget, hts]
        rfl
      · intro t ht
        rcases List.mem_cons.1 ht with rfl | ht
        · split <;> rfl
        · exact hsh t ht

/-- C10: the BasisState validation accepts any nonempty 0/1 parameter array of
length at most num_wires ('length at most num_wires' in its message), but the
per-wire tensor construction then indexes the array at every wire up to
num_wires - 1, so an array of length strictly between 0 and num_wires passes
validation and fails with an out-of-range indexing error that lies outside the
spec's error taxonomy; an array of length exactly num_wires succeeds. -/
theorem C10_basis_state_partial_validation (B : TNBackend) (d : Dev)
    (hrep : d.rep = "exact" ∨ d.rep = "mps") :
    (∀ bs : List Nat, bs ≠ [] → bs.length < d.num_wires →
       (∀ x ∈ bs, x = 0 ∨ x = 1) →
       ¬(bs.length = 0 ∨ bs.length > d.num_wires ∨ ¬(∀ x ∈ bs, x = 0 ∨ x = 1)) ∧
       addStatePrepNodes B "BasisState" [.bits bs] d = (.error .indexError, d)) ∧
    (Err.indexError ∉
       [Err.invalidConfig, Err.shapeMismatch, Err.invalidWires, Err.notSupported]) ∧
    (∀ bs : List Nat, bs.length = d.num_wires → 0 < d.num_wires →
       (∀ x ∈ bs, x = 0 ∨ x = 1) →
       ∃ d', addStatePrepNodes B "BasisState" [.bits bs] d = (.ok (), d')) := by
  refine ⟨?_, by decide, ?_⟩
  · intro bs hne hlt hvals
    have hv : ¬(bs.length = 0 ∨ bs.length > d.num_wires ∨
        ¬(∀ x ∈ bs, x = 0 ∨ x = 1)) := by
      push_neg
      refine ⟨fun h0 => hne (List.length_eq_zero.1 h0), by omega, hvals⟩
    refine ⟨hv, ?_⟩
    have hnone : basisTensors bs d.num_wires = none :=
      basisTensorsGo_none bs (List.range d.num_wires)
        ⟨bs.length, List.mem_range.2 hlt, Nat.le_refl _⟩
    unfold addStatePrepNodes
    rw [if_neg (by decide), if_pos rfl]
    simp only [List.head?_cons]
    rw [if_neg hv]
    rw [hnone]
  · intro bs hlen hpos hvals
    obtain ⟨ts, hts, htslen, htssh⟩ :=
      basisTensorsGo_some bs (List.range d.num_wires)
        (fun w hw => by rw [hlen]; exact List.mem_range.1 hw)
    have hv : ¬(bs.length = 0 ∨ bs.length > d.num_wires ∨
        ¬(∀ x ∈ bs, x = 0 ∨ x = 1)) := by
      push_neg
      refine ⟨by omega, by omega, hvals⟩
    have hitems := zip3_singleton_mem d.num_wires ts "BasisState" htssh
      (by rw [htslen, List.length_range])
    obtain ⟨d', hrun, -⟩ :=
      addInitialStateNodes_ok B ts ((List.range d.num_wires).map (fun w => [w]))
        (List.replicate d.num_wires "BasisState") d
        (by rw [htslen]; simp) (by simp)
        (fun it h => ⟨(hitems it h).1, fun _ => (hitems it h).2⟩) hrep
    refine ⟨d', ?_⟩
    unfold addStatePrepNodes
    rw [if_neg (by decide), if_pos rfl]
    simp only [List.head?_cons]
    rw [if_neg hv]
    unfold basisTensors
    rw [hts]
    exact hrun

/-- Witness for C10: a 2-wire device, the length-1 array [1] passes validation
but raises the IndexError, and the length-2 array [1, 0] succeeds. -/
theorem C10_witness :
    (Dev.rep ⟨2, 3, "exact", "auto", [], [], [], none, none, [], 0⟩ = "exact" ∨
     Dev.rep ⟨2, 3, "exact", "auto", [], [], [], none, none, [], 0⟩ = "mps") ∧
    ((∀ bs : List Nat, bs ≠ [] →
       bs.length < Dev.num_wires ⟨2, 3, "exact", "auto", [], [], [], none, none, [], 0⟩ →
       (∀ x ∈ bs, x = 0 ∨ x = 1) →
       ¬(bs.length = 0 ∨
         bs.length > Dev.num_wires ⟨2, 3, "exact", "auto", [], [], [], none, none, [], 0⟩ ∨
         ¬(∀ x ∈ bs, x = 0 ∨ x = 1)) ∧
       addStatePrepNodes B0 "BasisState" [.bits bs]
           ⟨2, 3, "exact", "auto", [], [], [], none, none, [], 0⟩
         = (.error .indexError, ⟨2, 3, "exact", "auto", [], [], [], none, none, [], 0⟩)) ∧
     (Err.indexError ∉
       [Err.invalidConfig, Err.shapeMismatch, Err.invalidWires, Err.notSupported]) ∧
     (∀ bs : List Nat,
       bs.length = Dev.num_wires ⟨2, 3, "exact", "auto", [], [], [], none, none, [], 0⟩ →
       0 < Dev.num_wires ⟨2, 3, "exact", "auto", [], [], [], none, none, [], 0⟩ →
       (∀ x ∈ bs, x = 0 ∨ x = 1) →
       ∃ d', addStatePrepNodes B0 "BasisState" [.bits bs]
           ⟨2, 3, "exact", "auto", [], [], [], none, none, [], 0⟩ = (.ok (), d'))) :=
  ⟨Or.inl rfl,
   C10_basis_state_partial_validation B0
     ⟨2, 3, "exact", "auto", [], [], [], none, none, [], 0⟩ (Or.inl rfl)⟩

/-- C1: the stale-cache run at the failing input.  On a 1-wire exact device,
read state() (caching [1, 0]), apply PauliX, and read state() again: the
second read still returns the cached pre-gate tensor [1, 0] because
_add_gate_nodes never clears _contracted_state_node, while the contraction of
the then-current network is [0, 1], which differs.  This contradicts the claim
(and the spec's invalidation requirement); the source's own TODO comment in
_state flags exactly this second-read-returns-earlier-cached-state case. -/
theorem C1_gate_after_cached_read_returns_stale_state :
    ((dinit B0 1 1000 "exact" "auto").toOption.map (fun d =>
        ((stateFn B0 ((apply cat0 B0 "PauliX" [0] []
            ((stateFn B0 d).2)).2)).1,
         exactNetworkState
           ((apply cat0 B0 "PauliX" [0] [] ((stateFn B0 d).2)).2).num_wires
           ((apply cat0 B0 "PauliX" [0] [] ((stateFn B0 d).2)).2).nodes_state,
         ((apply cat0 B0 "PauliX" [0] [] ((stateFn B0 d).2)).2).contracted)))
      = some (.ok ⟨[2], [1, 0]⟩, some ⟨[2], [0, 1]⟩, some ⟨[2], [1, 0]⟩) ∧
    (⟨[2], [1, 0]⟩ : QTensor) ≠ ⟨[2], [0, 1]⟩ := by
  constructor
  · decide
  · decide

theorem contractPremeasurement_congr (B : TNBackend) (d d' : Dev)
    (hrep : d'.rep = d.rep) (hnw : d'.num_wires = d.num_wires)
    (hcm : d'.contraction_method = d.contraction_method)
    (hns : d.rep = "exact" → d'.nodes_state = d.nodes_state)
    (hmps : d'.mps = d.mps) (hctr : d'.contracted = d.contracted) :
    (contractPremeasurement B d').1 = (contractPremeasurement B d).1 ∧
    (contractPremeasurement B d').2.contracted
      = (contractPremeasurement B d).2.contracted := by
  cases hd : d.contracted with
  | some t =>
    have hd' : d'.contracted = some t := by rw [hctr, hd]
    unfold contractPremeasurement
    rw [hd, hd']
    exact ⟨rfl, by rw [hd', hd]⟩
  | none =>
    have hd' : d'.contracted = none := by rw [hctr, hd]
    unfold contractPremeasurement
    rw [hd, hd', hrep, hcm, hnw, hmps]
    by_cases hx : d.rep = "exact"
    · rw [if_pos hx, if_pos hx, hns hx]
      by_cases hm : d.contraction_method ∈ contract_fns_names
      · rw [if_pos hm, if_pos hm]
        cases exactNetworkState d.num_wires d.nodes_state <;>
          exact ⟨rfl, by simp [hctr]⟩
      · rw [if_neg hm, if_neg hm]
        exact ⟨rfl, by rw [hd', hd]⟩
    · rw [if_neg hx, if_neg hx]
      by_cases hm2 : d.rep = "mps"
      · rw [if_pos hm2, if_pos hm2]
        cases d.mps <;> exact ⟨rfl, by simp [hd', hd]⟩
      · rw [if_neg hm2, if_neg hm2]
        exact ⟨rfl, by rw [hd', hd]⟩

theorem stateFn_val_congr (B : TNBackend) (d d' : Dev)
    (hrep : d'.rep = d.rep) (hnw : d'.num_wires = d.num_wires)
    (hcm : d'.contraction_method = d.contraction_method)
    (hns : d.rep = "exact" → d'.nodes_state = d.nodes_state)
    (hmps : d'.mps = d.mps) (hctr : d'.contracted = d.contracted) :
    (stateFn B d').1 = (stateFn B d).1 := by
  obtain ⟨h1, h2⟩ := contractPremeasurement_congr B d d' hrep hnw hcm hns hmps hctr
  unfold stateFn
  rcases hA : contractPremeasurement B d with ⟨r, d1⟩
  rcases hA' : contractPremeasurement B d' with ⟨r', d1'⟩
  rw [hA, hA'] at h1 h2
  simp only at h1 h2
  cases r with
  | ok u =>
    rw [h1]
    cases hcc : d1.contracted with
    | some ket =>
      have hc' : d1'.contracted = some ket := by rw [h2, hcc]
      simp only [hc', hcc]
    | none =>
      have hc' : d1'.contracted = none := by rw [h2, hcc]
      simp only [hc', hcc]
  | error e =>
    rw [h1]

/-- C2 counterexample: the claim's own scenario violates full atomicity.  In a
3-wire MPS device, applying a 2-wire gate across the non-adjacent wires 0 and
2 raises NotSupported, and the wire-edge table, MPS chain and cache are
untouched — but the device is not exactly as before: the node registry
("state" list of the _nodes dictionary) has gained the rejected gate's node,
which was registered before the adjacency check. -/
theorem C2_counterexample :
    ((dinit B0 3 1000 "mps" "auto").toOption.map (fun d =>
        ((apply cat0 B0 "CNOT" [0, 2] [] d).1,
         decide ((apply cat0 B0 "CNOT" [0, 2] [] d).2 = d),
         (apply cat0 B0 "CNOT" [0, 2] [] d).2.nodes_state.length,
         d.nodes_state.length))
      = some (.error .notSupported, false, 4, 3)) ∧
    ((dinit B0 3 1000 "mps" "auto").toOption.map (fun d =>
        (decide ((apply cat0 B0 "CNOT" [0, 2] [] d).2.free_wire_edges
           = d.free_wire_edges),
         decide ((apply cat0 B0 "CNOT" [0, 2] [] d).2.mps = d.mps),
         decide ((apply cat0 B0 "CNOT" [0, 2] [] d).2.contracted = d.contracted)))
      = some (true, true, true)) := by
  constructor
  · decide
  · decide

/-- C2 (amended): in MPS mode, applying a gate whose wire list is a
non-adjacent 2-wire pair — or has any arity other than 1 or 2 — raises
NotSupported after the gate's matrix has been resolved and registered: the
wire-edge table, the MPS chain and the contracted-state cache are exactly as
before the call and a subsequent state() read returns the same result (no
partial update is visible there), but the call is not fully atomic, because
the node registry keeps the rejected gate's node.  (State-prep wire validation
still rejects with InvalidWires before any mutation, while a ShapeMismatch
state-prep rejection happens only after the network has already been
cleared.) -/
theorem C2_mps_gate_rejection_partial_atomicity
    (cat : Catalog) (B : TNBackend) (op : String) (wires : List Nat)
    (par : List PVal) (d : Dev) (f : List PVal → CMat)
    (hrep : d.rep = "mps")
    (hop : ¬(op = "QubitStateVector" ∨ op = "BasisState"))
    (hres : mergedLookup cat op = some f)
    (hdim : (f par).dim = 2 ^ wires.length)
    (hbad : (∃ w1 w2, wires = [w1, w2] ∧ ((w2 : Int) - (w1 : Int)).natAbs ≠ 1) ∨
            (wires.length ≠ 1 ∧ wires.length ≠ 2)) :
    apply cat B op wires par d
      = (.error .notSupported,
         { d with
           nodes_state := d.nodes_state ++
             [⟨d.nextSerial, op, wires,
               ⟨List.replicate (2 * wires.length) 2, (f par).data⟩⟩]
           nextSerial := d.nextSerial + 1 }) ∧
    (apply cat B op wires par d).2.free_wire_edges = d.free_wire_edges ∧
    (apply cat B op wires par d).2.mps = d.mps ∧
    (apply cat B op wires par d).2.contracted = d.contracted ∧
    (stateFn B (apply cat B op wires par d).2).1 = (stateFn B d).1 := by
  have hne : ¬ d.rep = "exact" := by rw [hrep]; decide
  have hmain : apply cat B op wires par d
      = (.error .notSupported,
         { d with
           nodes_state := d.nodes_state ++
             [⟨d.nextSerial, op, wires,
               ⟨List.replicate (2 * wires.length) 2, (f par).data⟩⟩]
           nextSerial := d.nextSerial + 1 }) := by
    unfold apply
    rw [if_neg hop]
    unfold addGateNodes
    rw [hres]
    simp only
    rw [if_pos hdim, if_neg hne, if_pos hrep]
    rcases hbad with ⟨w1, w2, hws, hadj⟩ | ⟨h1, h2⟩
    · subst hws
      simp [addNode, hadj]
    · match wires, h1, h2 with
      | [], _, _ => simp [addNode]
      | w1 :: w2 :: w3 :: rest, _, _ => simp [addNode]
      | [w], hh, _ => exact absurd rfl hh
      | [w1, w2], _, hh => exact absurd rfl hh
  refine ⟨hmain, ?_, ?_, ?_, ?_⟩ <;> rw [hmain]
  · exact stateFn_val_congr B d _ rfl rfl rfl
      (fun hx => absurd hx hne) rfl rfl

/-- Witness for C2 (amended): the CNOT gate on the non-adjacent wires 0 and 2
of a 3-wire MPS device. -/
theorem C2_witness :
    devMps3.rep = "mps" ∧
    ¬("CNOT" = "QubitStateVector" ∨ "CNOT" = "BasisState") ∧
    mergedLookup cat0 "CNOT" = some (cat0 "CNOT") ∧
    (cat0 "CNOT" []).dim = 2 ^ ([0, 2] : List Nat).length ∧
    ((∃ w1 w2, ([0, 2] : List Nat) = [w1, w2] ∧
        ((w2 : Int) - (w1 : Int)).natAbs ≠ 1) ∨
      (([0, 2] : List Nat).length ≠ 1 ∧ ([0, 2] : List Nat).length ≠ 2)) ∧
    (apply cat0 B0 "CNOT" [0, 2] [] devMps3).1 = .error .notSupported ∧
    (apply cat0 B0 "CNOT" [0, 2] [] devMps3).2.free_wire_edges
      = devMps3.free_wire_edges ∧
    (apply cat0 B0 "CNOT" [0, 2] [] devMps3).2.mps = devMps3.mps ∧
    (apply cat0 B0 "CNOT" [0, 2] [] devMps3).2.contracted = devMps3.contracted ∧
    (stateFn B0 (apply cat0 B0 "CNOT" [0, 2] [] devMps3).2).1
      = (stateFn B0 devMps3).1 := by
  have h := C2_mps_gate_rejection_partial_atomicity cat0 B0 "CNOT" [0, 2] []
      devMps3 (cat0 "CNOT") rfl (by decide) rfl (by decide)
      (Or.inl ⟨0, 2, rfl, by decide⟩)
  exact ⟨rfl, by decide, rfl, by decide, Or.inl ⟨0, 2, rfl, by decide⟩,
    by rw [h.1], h.2.1, h.2.2.1, h.2.2.2.1, h.2.2.2.2⟩

theorem exactInitLoop_err (bad : QTensor × List Nat × String)
    (hbad : bad.1.rank ≠ bad.2.1.length) :
    ∀ (good rest : List (QTensor × List Nat × String)) (d : Dev),
      (∀ it ∈ good, it.1.rank = it.2.1.length) →
      ∃ d', exactInitLoop (good ++ bad :: rest) d = (.error .shapeMismatch, d') ∧
        d'.nodes_state.length = d.nodes_state.length + good.length := by
  intro good
  induction good with
  | nil =>
    intro rest d _
    obtain ⟨t, ws, nm⟩ := bad
    refine ⟨d, ?_, by simp⟩
    simp only [List.nil_append, exactInitLoop]
    rw [if_pos hbad]
  | cons it goodRest ih =>
    intro rest d hok
    obtain ⟨t, ws, nm⟩ := it
    have hrt : t.rank = ws.length := hok _ (List.mem_cons_self _ _)
    obtain ⟨d', hrun, hcount⟩ :=
      ih rest
        { (addNode t ws nm "state" d).2 with
          free_wire_edges := (addNode t ws nm "state" d).2.free_wire_edges ++
            (addNode t ws nm "state" d).1.edges }
        (fun it h => hok it (List.mem_cons_of_mem _ h))
    refine ⟨d', ?_, ?_⟩
    · simp only [List.cons_append, exactInitLoop]
      rw [if_neg (by simp [hrt])]
      exact hrun
    · rw [hcount]
      simp [addNode]
      omega

theorem mpsSplitLoop_nodes (B : TNBackend) (nm : String) :
    ∀ (ws : List Nat) (dv : QTensor) (d : Dev),
      (mpsSplitLoop B nm ws dv d).2.nodes_state.length
        = d.nodes_state.length + ws.length := by
  intro ws
  induction ws with
  | nil => intro dv d; rfl
  | cons w tail ih =>
    intro dv d
    cases tail with
    | nil => simp [mpsSplitLoop, addNode]
    | cons w' rest =>
      have h2 : (mpsSplitLoop B nm (w :: w' :: rest) dv d).2
          = (mpsSplitLoop B nm (w' :: rest) (B.splitNode dv).2
              (addNode (B.splitNode dv).1 [w] nm "state" d).2).2 := rfl
      rw [h2, ih]
      simp [addNode]
      omega

theorem mpsInitLoop_err (B : TNBackend) (bad : QTensor × List Nat × String)
    (hbad : bad.1.rank ≠ bad.2.1.length) :
    ∀ (good rest : List (QTensor × List Nat × String)) (acc : List ChainNode)
      (d : Dev),
      (∀ it ∈ good, it.1.rank = it.2.1.length ∧
        (it.1.shape = [2] ∨
          (it.2.1 ≠ [] ∧ maxL it.2.1 - minL it.2.1 = it.2.1.length - 1))) →
      ∃ d', mpsInitLoop B (good ++ bad :: rest) acc d
          = (.error .shapeMismatch, d') ∧
        d'.nodes_state.length = d.nodes_state.length +
          (good.map (fun it => it.2.1.length)).sum := by
  intro good
  induction good with
  | nil =>
    intro rest acc d _
    obtain ⟨t, ws, nm⟩ := bad
    refine ⟨d, ?_, by simp⟩
    simp only [List.nil_append, mpsInitLoop]
    rw [if_pos hbad]
  | cons it goodRest ih =>
    intro rest acc d hok
    obtain ⟨t, ws, nm⟩ := it
    have hrt : t.rank = ws.length := (hok _ (List.mem_cons_self _ _)).1
    have hshape := (hok _ (List.mem_cons_self _ _)).2
    have hokRest := fun it h => hok it (List.mem_cons_of_mem _ h)
    by_cases h2 : t.shape = [2]
    · have h121 : (t.expandFront.expandBack).shape = [1, 2, 1] := by
        simp [QTensor.expandFront, QTensor.expandBack, h2]
      have hws1 : ws.length = 1 := by
        rw [← hrt]; simp [QTensor.rank, h2]
      obtain ⟨d', hrun, hcount⟩ :=
        ih rest (acc ++ [((addNode t.expandFront.expandBack ws nm "state" d).1.serial,
            t.expandFront.expandBack)])
          (addNode t.expandFront.expandBack ws nm "state" d).2 hokRest
      refine ⟨d', ?_, ?_⟩
      · simp only [List.cons_append, mpsInitLoop]
        rw [if_neg (by simp [hrt]), if_pos h121]
        exact hrun
      · rw [hcount]
        simp [addNode, hws1]
        omega
    · have hcontig : ws ≠ [] ∧ maxL ws - minL ws = ws.length - 1 := by
        rcases hshape with h | h
        · exact absurd h h2
        · exact h
      have h121 : ¬ (t.expandFront.expandBack).shape = [1, 2, 1] := by
        intro hh
        apply h2
        simp only [QTensor.expandFront, QTensor.expandBack] at hh
        have hlen := congrArg List.length hh
        simp only [List.length_cons, List.length_append,
          List.length_singleton] at hlen
        cases ht : t.shape with
        | nil => rw [ht] at hlen; simp at hlen
        | cons a tl =>
          cases tl with
          | nil =>
            rw [ht] at hh
            simp at hh
            simp [ht, hh]
          | cons b tl2 => rw [ht] at hlen; simp at hlen
      obtain ⟨d', hrun, hcount⟩ :=
        ih rest (acc ++ (mpsSplitLoop B nm ws t.expandFront.expandBack d).1)
          (mpsSplitLoop B nm ws t.expandFront.expandBack d).2 hokRest
      refine ⟨d', ?_, ?_⟩
      · simp only [List.cons_append, mpsInitLoop]
        rw [if_neg (by simp [hrt]), if_neg h121, if_neg hcontig.1,
          if_neg (by simp [hcontig.2])]
        exact hrun
      · rw [hcount, mpsSplitLoop_nodes]
        simp
        omega

/-- C9: state preparation rejects shape-inconsistent input with ShapeMismatch:
in either representation, the first component tensor whose rank differs from
its wire-group length raises ShapeMismatch before any node is created for that
component (exactly the earlier components' nodes exist afterwards), and a
QubitStateVector parameter that is not a one-dimensional vector of length
2 ^ num_wires raises ShapeMismatch with the device unmutated. -/
theorem C9_shape_mismatch_rejection (B : TNBackend)
    (ts : List QTensor) (ws : List (List Nat)) (ns : List String)
    (good : List (QTensor × List Nat × String))
    (bad : QTensor × List Nat × String)
    (rest : List (QTensor × List Nat × String)) (d : Dev)
    (hlen1 : ts.length = ws.length) (hlen2 : ws.length = ns.length)
    (hzip : zip3 ts ws ns = good ++ bad :: rest)
    (hbad : bad.1.rank ≠ bad.2.1.length) :
    (d.rep = "exact" → (∀ it ∈ good, it.1.rank = it.2.1.length) →
       ∃ d', addInitialStateNodes B ts ws ns d = (.error .shapeMismatch, d') ∧
         d'.nodes_state.length = d.nodes_state.length + good.length) ∧
    (d.rep = "mps" →
       (∀ it ∈ good, it.1.rank = it.2.1.length ∧
         (it.1.shape = [2] ∨
           (it.2.1 ≠ [] ∧ maxL it.2.1 - minL it.2.1 = it.2.1.length - 1))) →
       ∃ d', addInitialStateNodes B ts ws ns d = (.error .shapeMismatch, d') ∧
         d'.nodes_state.length = d.nodes_state.length +
           (good.map (fun it => it.2.1.length)).sum) ∧
    (∀ (p : PVal) (pr : List PVal),
       ¬(p.ndim = 1 ∧ p.asVec.length = 2 ^ d.num_wires) →
       addStatePrepNodes B "QubitStateVector" (p :: pr) d
         = (.error .shapeMismatch, d)) := by
  refine ⟨?_, ?_, ?_⟩
  · intro hexact hok
    obtain ⟨d', hrun, hcount⟩ :=
      exactInitLoop_err bad hbad good rest { d with free_wire_edges := [] } hok
    refine ⟨d', ?_, by rw [hcount]⟩
    unfold addInitialStateNodes
    rw [if_neg (not_not_intro ⟨hlen1, hlen2⟩), if_pos hexact, hzip]
    exact hrun
  · intro hmps hok
    have hne : ¬ d.rep = "exact" := by rw [hmps]; decide
    obtain ⟨d', hrun, hcount⟩ := mpsInitLoop_err B bad hbad good rest [] d hok
    refine ⟨d', ?_, by rw [hcount]⟩
    unfold addInitialStateNodes
    rw [if_neg (not_not_intro ⟨hlen1, hlen2⟩), if_neg hne, if_pos hmps, hzip,
      hrun]
  · intro p pr hp
    unfold addStatePrepNodes
    rw [if_pos rfl]
    simp only [List.head?_cons]
    rw [if_neg hp]

/-- Witness for C9: a 1-wire exact device; the first preparation component is
rank-2 while its wire group has one wire, and a 3-element vector is no valid
1-wire state vector. -/
theorem C9_witness :
    (Dev.rep ⟨1, 3, "exact", "auto", [], [], [], none, none, [], 0⟩ = "exact" ∨
      True) ∧
    ((Dev.rep ⟨1, 3, "exact", "auto", [], [], [], none, none, [], 0⟩ = "exact" →
       (∀ it ∈ ([] : List (QTensor × List Nat × String)),
          it.1.rank = it.2.1.length) →
       ∃ d', addInitialStateNodes B0 [⟨[2, 2], [1, 0, 0, 1]⟩] [[0]] ["Bad"]
           ⟨1, 3, "exact", "auto", [], [], [], none, none, [], 0⟩
           = (.error .shapeMismatch, d') ∧
         d'.nodes_state.length
           = (Dev.nodes_state
               ⟨1, 3, "exact", "auto", [], [], [], none, none, [], 0⟩).length +
             ([] : List (QTensor × List Nat × String)).length) ∧
     (∀ (p : PVal) (pr : List PVal),
       ¬(p.ndim = 1 ∧ p.asVec.length
           = 2 ^ Dev.num_wires ⟨1, 3, "exact", "auto", [], [], [], none, none, [], 0⟩) →
       addStatePrepNodes B0 "QubitStateVector" (p :: pr)
           ⟨1, 3, "exact", "auto", [], [], [], none, none, [], 0⟩
         = (.error .shapeMismatch,
            ⟨1, 3, "exact", "auto", [], [], [], none, none, [], 0⟩)) ∧
     addStatePrepNodes B0 "QubitStateVector" [.vec [1, 0, 0]]
         ⟨1, 3, "exact", "auto", [], [], [], none, none, [], 0⟩
       = (.error .shapeMismatch,
          ⟨1, 3, "exact", "auto", [], [], [], none, none, [], 0⟩)) := by
  have h := C9_shape_mismatch_rejection B0 [⟨[2, 2], [1, 0, 0, 1]⟩] [[0]] ["Bad"]
    [] (⟨[2, 2], [1, 0, 0, 1]⟩, [0], "Bad") []
    ⟨1, 3, "exact", "auto", [], [], [], none, none, [], 0⟩
    (by decide) (by decide) rfl (by decide)
  exact ⟨Or.inl rfl, h.1, h.2.2,
    h.2.2 (.vec [1, 0, 0]) [] (by decide)⟩

theorem contractPremeasurement_cases (B : TNBackend) (d : Dev) :
    (∃ t, premeasTensor B d = some t ∧
       contractPremeasurement B d = (.ok (), { d with contracted := some t })) ∨
    (premeasTensor B d = none ∧ ∃ e,
       contractPremeasurement B d = (.error e, d)) := by
  cases hd : d.contracted with
  | some t =>
    have h1 : premeasTensor B d = some t := by unfold premeasTensor; rw [hd]
    have h2 : contractPremeasurement B d = (.ok (), d) := by
      unfold contractPremeasurement; rw [hd]
    left
    refine ⟨t, h1, ?_⟩
    rw [h2]
    have he : ({ d with contracted := some t } : Dev) = d := by
      rw [← hd]
    rw [he]
  | none =>
    by_cases hx : d.rep = "exact"
    · by_cases hm : d.contraction_method ∈ contract_fns_names
      · cases hE : exactNetworkState d.num_wires d.nodes_state with
        | some psi =>
          left
          refine ⟨psi, ?_, ?_⟩
          · unfold premeasTensor
            rw [hd, if_pos hx, if_pos hm, hE]
          · unfold contractPremeasurement
            rw [hd, if_pos hx, if_pos hm, hE]
        | none =>
          right
          refine ⟨?_, Err.valueErr, ?_⟩
          · unfold premeasTensor
            rw [hd, if_pos hx, if_pos hm, hE]
          · unfold contractPremeasurement
            rw [hd, if_pos hx, if_pos hm, hE]
      · right
        refine ⟨?_, Err.keyError, ?_⟩
        · unfold premeasTensor
          rw [hd, if_pos hx, if_neg hm]
        · unfold contractPremeasurement
          rw [hd, if_pos hx, if_neg hm]
    · by_cases hm2 : d.rep = "mps"
      · cases hmp : d.mps with
        | some ch =>
          left
          refine ⟨(B.mpsContract (ch.map Prod.snd)).squeeze, ?_, ?_⟩
          · unfold premeasTensor
            rw [hd, if_neg hx, if_pos hm2, hmp]
            rfl
          · unfold contractPremeasurement
            rw [hd, if_neg hx, if_pos hm2, hmp]
        | none =>
          right
          refine ⟨?_, Err.valueErr, ?_⟩
          · unfold premeasTensor
            rw [hd, if_neg hx, if_pos hm2, hmp]
            rfl
          · unfold contractPremeasurement
            rw [hd, if_neg hx, if_pos hm2, hmp]
      · right
        refine ⟨?_, Err.valueErr, ?_⟩
        · unfold premeasTensor
          rw [hd, if_neg hx, if_neg hm2]
        · unfold contractPremeasurement
          rw [hd, if_neg hx, if_neg hm2]

theorem zip_map_snd : ∀ (a : List α) (b : List β), a.length = b.length →
    (a.zip b).map Prod.snd = b := by
  intro a
  induction a with
  | nil =>
    intro b h
    cases b with
    | nil => rfl
    | cons x xs => simp at h
  | cons x xs ih =>
    intro b h
    cases b with
    | nil => simp at h
    | cons y ys =>
      simp only [List.zip_cons_cons, List.map_cons]
      rw [ih ys (by simpa using h)]

theorem ev_run (B : TNBackend) (obsNodes : List Node) (wires : List (List Nat))
    (d : Dev) (hlen : obsNodes.length = wires.length) :
    ((ev B obsNodes wires d).2.rep = d.rep ∧
     (ev B obsNodes wires d).2.num_wires = d.num_wires ∧
     (ev B obsNodes wires d).2.shots = d.shots ∧
     (ev B obsNodes wires d).2.contraction_method = d.contraction_method ∧
     (ev B obsNodes wires d).2.nodes_state = d.nodes_state ∧
     (ev B obsNodes wires d).2.nodes_observables = d.nodes_observables ∧
     (ev B obsNodes wires d).2.free_wire_edges = d.free_wire_edges ∧
     (ev B obsNodes wires d).2.mps = d.mps ∧
     (ev B obsNodes wires d).2.connected = d.connected ∧
     (ev B obsNodes wires d).2.nextSerial = d.nextSerial) ∧
    ((d.rep ≠ "exact" → (ev B obsNodes wires d).2.contracted = d.contracted) ∧
     (∀ v, (ev B obsNodes wires d).1 = .ok v → d.rep = "exact" →
        (ev B obsNodes wires d).2.contracted = premeasTensor B d) ∧
     ((ev B obsNodes wires d).2.contracted = d.contracted ∨
       (d.contracted = none ∧
        (ev B obsNodes wires d).2.contracted = premeasTensor B d))) ∧
    (∀ v, (ev B obsNodes wires d).1 = .ok v ↔
       evValue B d ((obsNodes.map Node.tensor).zip wires) = some v) := by
  have hsnd : ((obsNodes.map Node.tensor).zip wires).map Prod.snd = wires :=
    zip_map_snd _ _ (by simpa using hlen)
  by_cases hx : d.rep = "exact"
  · have hnotm : ¬ d.rep = "mps" := by rw [hx]; decide
    have hev : ev B obsNodes wires d
        = (match evExact B obsNodes wires d with
           | (.ok v, d1) => (.ok v.re, d1)
           | (.error e, d1) => (.error e, d1)) := by
      unfold ev
      rw [if_pos hx]
    rcases contractPremeasurement_cases B d with
      ⟨t, hpm, hcp⟩ | ⟨hpm, e, hcp⟩
    · have hex : evExact B obsNodes wires d
          = (.ok (evExactVal d.num_wires t
              ((obsNodes.map Node.tensor).zip wires)),
             { d with contracted := some t }) := by
        unfold evExact
        rw [hcp]
      rw [hev, hex]
      refine ⟨⟨rfl, rfl, rfl, rfl, rfl, rfl, rfl, rfl, rfl, rfl⟩,
        ⟨fun h => absurd hx h, fun v _ _ => by rw [hpm], ?_⟩, ?_⟩
      · cases hd : d.contracted with
        | some t0 =>
          left
          have : premeasTensor B d = some t0 := by
            unfold premeasTensor; rw [hd]
          rw [hpm] at this
          simp only [Option.some.injEq] at this
          rw [this]
        | none =>
          right
          exact ⟨rfl, by rw [hpm]⟩
      · intro v
        have hval : evValue B d ((obsNodes.map Node.tensor).zip wires)
            = some ((evExactVal d.num_wires t
                ((obsNodes.map Node.tensor).zip wires)).re) := by
          unfold evValue
          rw [if_pos hx, hpm]
          rfl
        rw [hval]
        simp
    · have hex : evExact B obsNodes wires d = (.error e, d) := by
        unfold evExact
        rw [hcp]
      rw [hev, hex]
      refine ⟨⟨rfl, rfl, rfl, rfl, rfl, rfl, rfl, rfl, rfl, rfl⟩,
        ⟨fun h => absurd hx h, fun v hv _ => by simp at hv, Or.inl rfl⟩, ?_⟩
      intro v
      have hval : evValue B d ((obsNodes.map Node.tensor).zip wires) = none := by
        unfold evValue
        rw [if_pos hx, hpm]
        rfl
      rw [hval]
      simp
  · by_cases hm2 : d.rep = "mps"
    · have hev : ev B obsNodes wires d
          = (match evMps B obsNodes wires d with
             | (.ok v, d1) => (.ok v.re, d1)
             | (.error e, d1) => (.error e, d1)) := by
        unfold ev
        rw [if_neg hx, if_pos hm2]
      by_cases hc1 : ∃ ws ∈ wires, ws.length > 2
      · have hmps : evMps B obsNodes wires d = (.error .notSupported, d) := by
          unfold evMps
          rw [if_pos hc1]
        rw [hev, hmps]
        refine ⟨⟨rfl, rfl, rfl, rfl, rfl, rfl, rfl, rfl, rfl, rfl⟩,
          ⟨fun _ => rfl, fun _ _ hx' => absurd hx' hx, Or.inl rfl⟩, ?_⟩
        intro v
        have hval : evValue B d ((obsNodes.map Node.tensor).zip wires) = none := by
          unfold evValue
          rw [if_neg hx, if_pos hm2, if_pos (Or.inl (by rw [hsnd]; exact hc1))]
        rw [hval]
        simp
      · by_cases hc2 : ∃ ws ∈ wires, ws.length = 2 ∧
            ((ws.getD 1 0 : Int) - (ws.getD 0 0 : Int)).natAbs > 1
        · have hmps : evMps B obsNodes wires d = (.error .notSupported, d) := by
            unfold evMps
            rw [if_neg hc1, if_pos hc2]
          rw [hev, hmps]
          refine ⟨⟨rfl, rfl, rfl, rfl, rfl, rfl, rfl, rfl, rfl, rfl⟩,
            ⟨fun _ => rfl, fun _ _ hx' => absurd hx' hx, Or.inl rfl⟩, ?_⟩
          intro v
          have hval : evValue B d ((obsNodes.map Node.tensor).zip wires) = none := by
            unfold evValue
            rw [if_neg hx, if_pos hm2, if_pos (Or.inr (by rw [hsnd]; exact hc2))]
          rw [hval]
          simp
        · have hnc : ¬ ((∃ ws ∈ ((obsNodes.map Node.tensor).zip wires).map Prod.snd,
              ws.length > 2) ∨
              (∃ ws ∈ ((obsNodes.map Node.tensor).zip wires).map Prod.snd,
                ws.length = 2 ∧
                ((ws.getD 1 0 : Int) - (ws.getD 0 0 : Int)).natAbs > 1)) := by
            rw [hsnd]
            push_neg
            constructor
            · intro ws hws
              by_contra hgt
              exact hc1 ⟨ws, hws, by omega⟩
            · intro ws hws h2
              by_contra hgt
              exact hc2 ⟨ws, hws, h2, by omega⟩
          cases hmp : d.mps with
          | none =>
            have hmps : evMps B obsNodes wires d = (.error .valueErr, d) := by
              unfold evMps
              rw [if_neg hc1, if_neg hc2, hmp]
            rw [hev, hmps]
            refine ⟨⟨rfl, rfl, rfl, rfl, rfl, rfl, rfl, hmp, rfl, rfl⟩,
              ⟨fun _ => rfl, fun _ _ hx' => absurd hx' hx, Or.inl rfl⟩, ?_⟩
            intro v
            have hval : evValue B d ((obsNodes.map Node.tensor).zip wires)
                = none := by
              unfold evValue
              rw [if_neg hx, if_pos hm2, if_neg hnc, hmp]
              rfl
            rw [hval]
            simp
          | some ch =>
            have hmps : evMps B obsNodes wires d
                = (.ok (B.mpsEv (ch.map Prod.snd)
                    ((obsNodes.map Node.tensor).zip wires)), d) := by
              unfold evMps
              rw [if_neg hc1, if_neg hc2, hmp]
            rw [hev, hmps]
            refine ⟨⟨rfl, rfl, rfl, rfl, rfl, rfl, rfl, hmp, rfl, rfl⟩,
              ⟨fun _ => rfl, fun _ _ hx' => absurd hx' hx, Or.inl rfl⟩, ?_⟩
            intro v
            have hval : evValue B d ((obsNodes.map Node.tensor).zip wires)
                = some ((B.mpsEv (ch.map Prod.snd)
                    ((obsNodes.map Node.tensor).zip wires)).re) := by
              unfold evValue
              rw [if_neg hx, if_pos hm2, if_neg hnc, hmp]
              rfl
            rw [hval]
            simp
    · have hev : ev B obsNodes wires d = (.error .valueErr, d) := by
        unfold ev
        rw [if_neg hx, if_neg hm2]
      rw [hev]
      refine ⟨⟨rfl, rfl, rfl, rfl, rfl, rfl, rfl, rfl, rfl, rfl⟩,
        ⟨fun _ => rfl, fun _ _ hx' => absurd hx' hx, Or.inl rfl⟩, ?_⟩
      intro v
      have hval : evValue B d ((obsNodes.map Node.tensor).zip wires) = none := by
        unfold evValue
        rw [if_neg hx, if_neg hm2]
      rw [hval]
      simp

theorem createNodesObs_char :
    ∀ (items : List (QTensor × List Nat × String)) (d : Dev),
      ((createNodesFromTensors "observables" items d).1.map Node.tensor
        = items.map (fun it => it.1)) ∧
      ((createNodesFromTensors "observables" items d).1.length = items.length) ∧
      ((createNodesFromTensors "observables" items d).2.rep = d.rep ∧
       (createNodesFromTensors "observables" items d).2.num_wires = d.num_wires ∧
       (createNodesFromTensors "observables" items d).2.shots = d.shots ∧
       (createNodesFromTensors "observables" items d).2.contraction_method
         = d.contraction_method ∧
       (createNodesFromTensors "observables" items d).2.nodes_state
         = d.nodes_state ∧
       (createNodesFromTensors "observables" items d).2.free_wire_edges
         = d.free_wire_edges ∧
       (createNodesFromTensors "observables" items d).2.mps = d.mps ∧
       (createNodesFromTensors "observables" items d).2.contracted
         = d.contracted ∧
       (createNodesFromTensors "observables" items d).2.connected
         = d.connected) := by
  intro items
  induction items with
  | nil =>
    intro d
    exact ⟨rfl, rfl, rfl, rfl, rfl, rfl, rfl, rfl, rfl, rfl, rfl⟩
  | cons it rest ih =>
    intro d
    obtain ⟨t, ws, nm⟩ := it
    obtain ⟨iht, ihl, ihr, ihnw, ihsh, ihcm, ihns, ihfr, ihm, ihc, ihcn⟩ :=
      ih (addNode t ws nm "observables" d).2
    have h1 : (createNodesFromTensors "observables" ((t, ws, nm) :: rest) d).1
        = (addNode t ws nm "observables" d).1 ::
          (createNodesFromTensors "observables" rest
            (addNode t ws nm "observables" d).2).1 := rfl
    have h2 : (createNodesFromTensors "observables" ((t, ws, nm) :: rest) d).2
        = (createNodesFromTensors "observables" rest
            (addNode t ws nm "observables" d).2).2 := rfl
    refine ⟨?_, ?_, ?_, ?_, ?_, ?_, ?_, ?_, ?_, ?_, ?_⟩
    · rw [h1]
      simp only [List.map_cons, iht]
      rfl
    · rw [h1]
      simp only [List.length_cons, ihl]
    · rw [h2, ihr]; rfl
    · rw [h2, ihnw]; rfl
    · rw [h2, ihsh]; rfl
    · rw [h2, ihcm]; rfl
    · rw [h2, ihns]; simp [addNode]
    · rw [h2, ihfr]; rfl
    · rw [h2, ihm]; rfl
    · rw [h2, ihc]; rfl
    · rw [h2, ihcn]; rfl

theorem premeasTensor_stable (B : TNBackend) (d d2 : Dev)
    (hrep : d2.rep = d.rep) (hnw : d2.num_wires = d.num_wires)
    (hcm : d2.contraction_method = d.contraction_method)
    (hns : d2.nodes_state = d.nodes_state) (hmps : d2.mps = d.mps)
    (hctr : d2.contracted = d.contracted ∨
      (d.contracted = none ∧ d2.contracted = premeasTensor B d)) :
    premeasTensor B d2 = premeasTensor B d := by
  rcases hctr with hctr | ⟨hnone, hctr⟩
  · unfold premeasTensor
    rw [hctr, hrep, hnw, hcm, hns, hmps]
  · cases hv : premeasTensor B d with
    | some t =>
      have h2 : d2.contracted = some t := by rw [hctr, hv]
      have hsome : premeasTensor B d2 = some t := by
        unfold premeasTensor
        rw [h2]
      rw [hsome]
    | none =>
      have h2 : d2.contracted = none := by rw [hctr, hv]
      rw [← hv]
      unfold premeasTensor
      rw [h2, hnone, hrep, hnw, hcm, hns, hmps]

theorem evValue_stable (B : TNBackend) (d d2 : Dev)
    (hrep : d2.rep = d.rep) (hnw : d2.num_wires = d.num_wires)
    (hcm : d2.contraction_method = d.contraction_method)
    (hns : d2.nodes_state = d.nodes_state) (hmps : d2.mps = d.mps)
    (hctr : d2.contracted = d.contracted ∨
      (d.contracted = none ∧ d2.contracted = premeasTensor B d))
    (obs : List (QTensor × List Nat)) :
    evValue B d2 obs = evValue B d obs := by
  have hpm := premeasTensor_stable B d d2 hrep hnw hcm hns hmps hctr
  unfold evValue
  rw [hrep, hnw, hmps, hpm]

theorem resolveObsTensors_length (cat : Catalog) :
    ∀ (items : List (String × List PVal × List Nat)) (ts : List QTensor),
      resolveObsTensors cat items = .ok ts → ts.length = items.length := by
  intro items
  induction items with
  | nil =>
    intro ts h
    cases h
    rfl
  | cons it rest ih =>
    intro ts h
    obtain ⟨o, p, w⟩ := it
    unfold resolveObsTensors at h
    split at h
    · cases h
    · rename_i f hf
      by_cases hdim : (f p).dim = 2 ^ w.length
      · simp only [if_pos hdim] at h
        split at h
        · rename_i ts' hrest
          cases h
          simp [ih ts' hrest]
        · cases h
      · simp only [if_neg hdim] at h
        cases h

theorem zip3_length (a : List α) (b : List β) (c : List γ)
    (h1 : a.length = b.length) (h2 : b.length = c.length) :
    (zip3 a b c).length = a.length := by
  unfold zip3
  rw [List.length_zip, List.length_zip]
  omega

theorem zip3_map_fst :
    ∀ (a : List QTensor) (b : List (List Nat)) (c : List String),
      a.length = b.length → b.length = c.length →
      (zip3 a b c).map (fun it => it.1) = a := by
  intro a
  induction a with
  | nil =>
    intro b c h1 _
    cases b with
    | nil => rfl
    | cons x xs => simp at h1
  | cons x xs ih =>
    intro b c h1 h2
    cases b with
    | nil => simp at h1
    | cons y ys =>
      cases c with
      | nil => simp at h2
      | cons z zs =>
        simp only [zip3, List.zip_cons_cons, List.map_cons]
        have := ih ys zs (by simpa using h1) (by simpa using h2)
        simp only [zip3] at this
        rw [this]


theorem expval_run (cat : Catalog) (B : TNBackend) (obs : List String)
    (wires : List (List Nat)) (par : List (List PVal)) (d : Dev)
    (hlo : obs.length = wires.length) (hlp : obs.length = par.length)
    (ts : List QTensor)
    (hts : resolveObsTensors cat (zip3 obs par wires) = .ok ts) :
    ((expval cat B obs wires par d).2.rep = d.rep ∧
     (expval cat B obs wires par d).2.num_wires = d.num_wires ∧
     (expval cat B obs wires par d).2.shots = d.shots ∧
     (expval cat B obs wires par d).2.contraction_method
       = d.contraction_method ∧
     (expval cat B obs wires par d).2.nodes_state = d.nodes_state ∧
     (expval cat B obs wires par d).2.free_wire_edges = d.free_wire_edges ∧
     (expval cat B obs wires par d).2.mps = d.mps) ∧
    ((d.rep ≠ "exact" →
        (expval cat B obs wires par d).2.contracted = d.contracted) ∧
     (∀ v, (expval cat B obs wires par d).1 = .ok v → d.rep = "exact" →
        (expval cat B obs wires par d).2.contracted = premeasTensor B d) ∧
     ((expval cat B obs wires par d).2.contracted = d.contracted ∨
       (d.contracted = none ∧
        (expval cat B obs wires par d).2.contracted = premeasTensor B d))) ∧
    (∀ v, (expval cat B obs wires par d).1 = .ok v ↔
       evValue B d (ts.zip wires) = some v) := by
  have htl : ts.length = obs.length := by
    have hzl : (zip3 obs par wires).length = obs.length :=
      zip3_length obs par wires hlp (by omega)
    rw [resolveObsTensors_length cat (zip3 obs par wires) ts hts, hzl]
  have htw : ts.length = wires.length := by omega
  have hwo : wires.length = obs.length := hlo.symm
  obtain ⟨hAt, hAl, hAr, hAnw, hAsh, hAcm, hAns, hAfr, hAm, hAc, hAcn⟩ :=
    createNodesObs_char (zip3 ts wires obs) d
  have hAt2 : (createNodesFromTensors "observables" (zip3 ts wires obs) d).1.map
      Node.tensor = ts := by
    rw [hAt]
    exact zip3_map_fst ts wires obs htw hwo
  have hAlen :
      (createNodesFromTensors "observables" (zip3 ts wires obs) d).1.length
      = wires.length := by
    rw [hAl, zip3_length ts wires obs htw hwo]
    exact htw
  obtain ⟨⟨hr1, hnw1, hsh1, hcm1, hns1, hno1, hfr1, hm1, hcn1, hsr1⟩,
    ⟨hc1a, hc1b, hc1c⟩, hval1⟩ :=
    ev_run B (createNodesFromTensors "observables" (zip3 ts wires obs) d).1
      wires (createNodesFromTensors "observables" (zip3 ts wires obs) d).2 hAlen
  have hexp : expval cat B obs wires par d
      = ev B (createNodesFromTensors "observables" (zip3 ts wires obs) d).1
          wires (createNodesFromTensors "observables" (zip3 ts wires obs) d).2 := by
    unfold expval
    rw [hts]
  have hpmA : premeasTensor B
      (createNodesFromTensors "observables" (zip3 ts wires obs) d).2
      = premeasTensor B d :=
    premeasTensor_stable B d _ hAr hAnw hAcm hAns hAm (Or.inl hAc)
  have hevA : evValue B
      (createNodesFromTensors "observables" (zip3 ts wires obs) d).2
        (ts.zip wires)
      = evValue B d (ts.zip wires) :=
    evValue_stable B d _ hAr hAnw hAcm hAns hAm (Or.inl hAc) (ts.zip wires)
  rw [hexp]
  refine ⟨⟨?_, ?_, ?_, ?_, ?_, ?_, ?_⟩, ⟨?_, ?_, ?_⟩, ?_⟩
  · rw [hr1, hAr]
  · rw [hnw1, hAnw]
  · rw [hsh1, hAsh]
  · rw [hcm1, hAcm]
  · rw [hns1, hAns]
  · rw [hfr1, hAfr]
  · rw [hm1, hAm]
  · intro hne
    rw [hc1a (by rw [hAr]; exact hne), hAc]
  · intro v hv hrep
    rw [hc1b v hv (by rw [hAr]; exact hrep), hpmA]
  · rcases hc1c with h | ⟨hn, h⟩
    · exact Or.inl (by rw [h, hAc])
    · exact Or.inr ⟨by rw [← hAc]; exact hn, by rw [h, hpmA]⟩
  · intro v
    rw [hval1 v, hAt2, hevA]

/-- The exact-representation single-wire device immediately after reset: the
factorized all-zeros one-wire state. -/
def devEx1 : Dev :=
  (resetDev B0 ⟨1, 3, "exact", "auto", [], [], [], none, none, [], 0⟩).2

/-- C3: measurement queries are idempotent reads that never invalidate the
contracted-state cache.  When an expval call on state d succeeds with value
v1, repeating the identical call (same observables, wire groups, parameters)
on the resulting state succeeds with the same value v1; the cached
contracted-state tensor is the same after the second query as after the
first; and any contracted-state tensor cached before the queries is still
the cached tensor after both of them. -/
theorem C3_expval_idempotent_read (cat : Catalog) (B : TNBackend)
    (obs : List String) (wires : List (List Nat)) (par : List (List PVal))
    (d : Dev) (v1 : ℤ)
    (hlo : obs.length = wires.length) (hlp : obs.length = par.length)
    (h1 : (expval cat B obs wires par d).1 = .ok v1) :
    (expval cat B obs wires par (expval cat B obs wires par d).2).1
      = .ok v1 ∧
    (expval cat B obs wires par
        (expval cat B obs wires par d).2).2.contracted
      = (expval cat B obs wires par d).2.contracted ∧
    (∀ t, d.contracted = some t →
      (expval cat B obs wires par
        (expval cat B obs wires par d).2).2.contracted = some t) := by
  cases hts : resolveObsTensors cat (zip3 obs par wires) with
  | error e =>
    exfalso
    unfold expval at h1
    rw [hts] at h1
    cases h1
  | ok ts =>
    obtain ⟨⟨f1r, f1nw, f1sh, f1cm, f1ns, f1fr, f1m⟩, ⟨c1a, c1b, c1c⟩, v1iff⟩ :=
      expval_run cat B obs wires par d hlo hlp ts hts
    obtain ⟨⟨f2r, f2nw, f2sh, f2cm, f2ns, f2fr, f2m⟩, ⟨c2a, c2b, c2c⟩, v2iff⟩ :=
      expval_run cat B obs wires par (expval cat B obs wires par d).2
        hlo hlp ts hts
    have hvd : evValue B d (ts.zip wires) = some v1 := (v1iff v1).mp h1
    have hev1 : evValue B (expval cat B obs wires par d).2 (ts.zip wires)
        = evValue B d (ts.zip wires) :=
      evValue_stable B d _ f1r f1nw f1cm f1ns f1m c1c (ts.zip wires)
    have h2 : (expval cat B obs wires par
        (expval cat B obs wires par d).2).1 = .ok v1 := by
      rw [v2iff v1, hev1]
      exact hvd
    have hpm1 : premeasTensor B (expval cat B obs wires par d).2
        = premeasTensor B d :=
      premeasTensor_stable B d _ f1r f1nw f1cm f1ns f1m c1c
    refine ⟨h2, ?_, ?_⟩
    · by_cases hrep : d.rep = "exact"
      · have e1 : (expval cat B obs wires par d).2.contracted
            = premeasTensor B d := c1b v1 h1 hrep
        have e2 : (expval cat B obs wires par
            (expval cat B obs wires par d).2).2.contracted
            = premeasTensor B (expval cat B obs wires par d).2 :=
          c2b v1 h2 (by rw [f1r]; exact hrep)
        rw [e2, hpm1, e1]
      · exact c2a (by rw [f1r]; exact hrep)
    · intro t ht
      have e1 : (expval cat B obs wires par d).2.contracted = some t := by
        rcases c1c with h | ⟨hn, _⟩
        · rw [h, ht]
        · rw [ht] at hn; cases hn
      rcases c2c with h | ⟨hn, _⟩
      · rw [h, e1]
      · rw [e1] at hn; cases hn

theorem C3_witness :
    (expval cat0 B0 ["PauliZ"] [[0]] [[]] devEx1).1 = .ok 1 ∧
    (expval cat0 B0 ["PauliZ"] [[0]] [[]]
      (expval cat0 B0 ["PauliZ"] [[0]] [[]] devEx1).2).1 = .ok 1 :=
  ⟨by decide,
   (C3_expval_idempotent_read cat0 B0 ["PauliZ"] [[0]] [[]] devEx1 1
     (by decide) (by decide) (by decide)).1⟩


theorem resolveMatrices_length (cat : Catalog) :
    ∀ (items : List (String × List PVal)) (ms : List CMat),
      resolveMatrices cat items = .ok ms → ms.length = items.length := by
  intro items
  induction items with
  | nil =>
    intro ms h
    cases h
    rfl
  | cons it rest ih =>
    intro ms h
    obtain ⟨o, p⟩ := it
    unfold resolveMatrices at h
    split at h
    · cases h
    · split at h
      · rename_i ms' hrest
        cases h
        simp [ih ms' hrest]
      · cases h

theorem reshapeAll_length :
    ∀ (items : List (CMat × List Nat)) (ts : List QTensor),
      reshapeAll items = .ok ts → ts.length = items.length := by
  intro items
  induction items with
  | nil =>
    intro ts h
    cases h
    rfl
  | cons it rest ih =>
    intro ts h
    obtain ⟨A, w⟩ := it
    unfold reshapeAll at h
    split at h
    · split at h
      · rename_i ts' hrest
        cases h
        simp [ih ts' hrest]
      · cases h
    · cases h

theorem evValue_after_createNodes (B : TNBackend)
    (items : List (QTensor × List Nat × String)) (d : Dev)
    (X : List (QTensor × List Nat)) :
    evValue B (createNodesFromTensors "observables" items d).2 X
      = evValue B d X := by
  obtain ⟨hz1, hz2, hr, hnw, hsh, hcm, hns, hfr, hm, hc, hcn⟩ :=
    createNodesObs_char items d
  exact evValue_stable B d _ hr hnw hcm hns hm (Or.inl hc) X

theorem evValue_after_ev (B : TNBackend) (ns : List Node)
    (ws : List (List Nat)) (d : Dev) (hlen : ns.length = ws.length)
    (X : List (QTensor × List Nat)) :
    evValue B (ev B ns ws d).2 X = evValue B d X := by
  obtain ⟨⟨hr, hnw, hsh, hcm, hns, hno, hfr, hm, hcn, hsr⟩,
    ⟨hca, hcb, hcc⟩, hval⟩ := ev_run B ns ws d hlen
  exact evValue_stable B d _ hr hnw hcm hns hm hcc X

/-- C8: the variance operation returns exactly the expectation of the matrix
product A·A (computed through the same expectation machinery, with the
observable matrix squared as a matrix product) minus the square of the
expectation of A: whenever var succeeds with value v, the resolved observable
matrices admit expectation values a (of the reshaped matrix squares A.matMul A)
and b (of the reshaped matrices A) at the measured state, under the very
expectation-value function the expectation machinery computes, and
v = a - b ^ 2. -/
theorem C8_var_is_expectation_identity (cat : Catalog) (B : TNBackend)
    (obs : List String) (wires : List (List Nat)) (par : List (List PVal))
    (d : Dev) (v : ℤ)
    (hlo : obs.length = wires.length) (hlp : obs.length = par.length)
    (h : (var cat B obs wires par d).1 = .ok v) :
    ∃ mats a b,
      resolveMatrices cat (obs.zip par) = .ok mats ∧
      (∃ tsq, reshapeAll ((mats.map (fun A => A.matMul A)).zip wires)
          = .ok tsq ∧
        evValue B d (tsq.zip wires) = some a) ∧
      (∃ ts, reshapeAll (mats.zip wires) = .ok ts ∧
        evValue B d (ts.zip wires) = some b) ∧
      v = a - b ^ 2 := by
  cases hmats : resolveMatrices cat (obs.zip par) with
  | error e =>
    exfalso
    unfold var at h
    simp only [hmats] at h
    exact Except.noConfusion h
  | ok mats =>
  cases hts : reshapeAll (mats.zip wires) with
  | error e =>
    exfalso
    unfold var at h
    simp only [hmats, hts] at h
    exact Except.noConfusion h
  | ok ts =>
  cases htsq : reshapeAll ((mats.map (fun A => A.matMul A)).zip wires) with
  | error e =>
    exfalso
    unfold var at h
    simp only [hmats, hts, htsq] at h
    exact Except.noConfusion h
  | ok tsq =>
  rcases hev1 : ev B (createNodesFromTensors "observables" (zip3 tsq wires obs)
      (createNodesFromTensors "observables" (zip3 ts wires obs) d).2).1 wires
      (createNodesFromTensors "observables" (zip3 tsq wires obs)
        (createNodesFromTensors "observables" (zip3 ts wires obs) d).2).2
    with ⟨e1, d3⟩
  cases e1 with
  | error e =>
    exfalso
    unfold var at h
    simp only [hmats, hts, htsq, hev1] at h
    exact Except.noConfusion h
  | ok v1 =>
  rcases hev2 : ev B
      (createNodesFromTensors "observables" (zip3 ts wires obs) d).1 wires d3
    with ⟨e2, d4⟩
  cases e2 with
  | error e =>
    exfalso
    unfold var at h
    simp only [hmats, hts, htsq, hev1, hev2] at h
    exact Except.noConfusion h
  | ok v2 =>
  have hv : v = v1 - v2 ^ 2 := by
    unfold var at h
    simp only [hmats, hts, htsq, hev1, hev2] at h
    injection h with h
    exact h.symm
  have hml : mats.length = obs.length := by
    rw [resolveMatrices_length cat (obs.zip par) mats hmats, List.length_zip]
    omega
  have htsl : ts.length = wires.length := by
    rw [reshapeAll_length (mats.zip wires) ts hts, List.length_zip]
    omega
  have htql : tsq.length = wires.length := by
    rw [reshapeAll_length ((mats.map (fun A => A.matMul A)).zip wires) tsq htsq,
      List.length_zip, List.length_map]
    omega
  have hwo : wires.length = obs.length := hlo.symm
  obtain ⟨hAt, hAl, hA3, hA4, hA5, hA6, hA7, hA8, hA9, hA10, hA11⟩ :=
    createNodesObs_char (zip3 ts wires obs) d
  obtain ⟨hBt, hBl, hB3, hB4, hB5, hB6, hB7, hB8, hB9, hB10, hB11⟩ :=
    createNodesObs_char (zip3 tsq wires obs)
      (createNodesFromTensors "observables" (zip3 ts wires obs) d).2
  have hAt2 : (createNodesFromTensors "observables" (zip3 ts wires obs) d).1.map
      Node.tensor = ts := by
    rw [hAt]
    exact zip3_map_fst ts wires obs htsl hwo
  have hBt2 : (createNodesFromTensors "observables" (zip3 tsq wires obs)
      (createNodesFromTensors "observables"
        (zip3 ts wires obs) d).2).1.map Node.tensor = tsq := by
    rw [hBt]
    exact zip3_map_fst tsq wires obs htql hwo
  have hAlen :
      (createNodesFromTensors "observables" (zip3 ts wires obs) d).1.length
      = wires.length := by
    rw [hAl, zip3_length ts wires obs htsl hwo]
    exact htsl
  have hBlen :
      (createNodesFromTensors "observables" (zip3 tsq wires obs)
        (createNodesFromTensors "observables"
          (zip3 ts wires obs) d).2).1.length = wires.length := by
    rw [hBl, zip3_length tsq wires obs htql hwo]
    exact htql
  obtain ⟨hF1, hC1, hval1⟩ :=
    ev_run B (createNodesFromTensors "observables" (zip3 tsq wires obs)
        (createNodesFromTensors "observables" (zip3 ts wires obs) d).2).1 wires
      (createNodesFromTensors "observables" (zip3 tsq wires obs)
        (createNodesFromTensors "observables" (zip3 ts wires obs) d).2).2 hBlen
  obtain ⟨hF2, hC2, hval2⟩ :=
    ev_run B (createNodesFromTensors "observables" (zip3 ts wires obs) d).1
      wires d3 hAlen
  have he1 : (ev B (createNodesFromTensors "observables" (zip3 tsq wires obs)
      (createNodesFromTensors "observables" (zip3 ts wires obs) d).2).1 wires
      (createNodesFromTensors "observables" (zip3 tsq wires obs)
        (createNodesFromTensors "observables"
          (zip3 ts wires obs) d).2).2).1 = .ok v1 := by
    rw [hev1]
  have he1d : (ev B (createNodesFromTensors "observables" (zip3 tsq wires obs)
      (createNodesFromTensors "observables" (zip3 ts wires obs) d).2).1 wires
      (createNodesFromTensors "observables" (zip3 tsq wires obs)
        (createNodesFromTensors "observables"
          (zip3 ts wires obs) d).2).2).2 = d3 := by
    rw [hev1]
  have he2 : (ev B (createNodesFromTensors "observables" (zip3 ts wires obs)
      d).1 wires d3).1 = .ok v2 := by
    rw [hev2]
  have hv1 : evValue B d (tsq.zip wires) = some v1 := by
    have := (hval1 v1).mp he1
    rw [hBt2, evValue_after_createNodes, evValue_after_createNodes] at this
    exact this
  have hv2 : evValue B d (ts.zip wires) = some v2 := by
    have := (hval2 v2).mp he2
    rw [hAt2, ← he1d, evValue_after_ev B _ wires _ hBlen,
      evValue_after_createNodes, evValue_after_createNodes] at this
    exact this
  exact ⟨mats, v1, v2, rfl, ⟨tsq, htsq, hv1⟩, ⟨ts, hts, hv2⟩, hv⟩

theorem C8_witness :
    (var cat0 B0 ["PauliZ"] [[0]] [[]] devEx1).1 = .ok 0 ∧
    (∃ mats a b,
      resolveMatrices cat0 (["PauliZ"].zip [[]]) = .ok mats ∧
      (∃ tsq, reshapeAll ((mats.map (fun A => A.matMul A)).zip [[0]])
          = .ok tsq ∧
        evValue B0 devEx1 (tsq.zip [[0]]) = some a) ∧
      (∃ ts, reshapeAll (mats.zip [[0]]) = .ok ts ∧
        evValue B0 devEx1 (ts.zip [[0]]) = some b) ∧
      (0 : ℤ) = a - b ^ 2) :=
  ⟨by decide,
   C8_var_is_expectation_identity cat0 B0 ["PauliZ"] [[0]] [[]] devEx1 0
     (by decide) (by decide) (by decide)⟩


theorem get?_set_ne (l : List α) (n m : Nat) (a : α) (h : n ≠ m) :
    (l.set n a).get? m = l.get? m := by
  rw [List.get?_eq_getElem?, List.get?_eq_getElem?, List.getElem?_set_ne h]

theorem get?_set_self (l : List α) (n : Nat) (a : α) (h : n < l.length) :
    (l.set n a).get? n = some a := by
  rw [List.get?_eq_getElem?, List.getElem?_set_eq_of_lt a h]

theorem nodup_set_of_not_mem :
    ∀ (l : List α) (n : Nat) (a : α), l.Nodup → a ∉ l → (l.set n a).Nodup := by
  intro l
  induction l with
  | nil => intro n a _ _; simp
  | cons x xs ih =>
    intro n a hnd hna
    cases n with
    | zero =>
      simp only [List.set_cons_zero, List.nodup_cons]
      exact ⟨fun hm => hna (List.mem_cons_of_mem x hm),
        (List.nodup_cons.mp hnd).2⟩
    | succ m =>
      simp only [List.set_cons_succ, List.nodup_cons]
      refine ⟨?_, ih m a (List.nodup_cons.mp hnd).2
        (fun hm => hna (List.mem_cons_of_mem x hm))⟩
      intro hm
      rcases List.mem_or_eq_of_mem_set hm with hx | hx
      · exact (List.nodup_cons.mp hnd).1 hx
      · exact hna (hx ▸ List.mem_cons_self x xs)

theorem not_mem_set_of_nodup :
    ∀ (l : List α) (n : Nat) (a b : α), l.Nodup → l.get? n = some a → a ≠ b →
      a ∉ l.set n b := by
  intro l
  induction l with
  | nil => intro n a b _ hg _; cases hg
  | cons x xs ih =>
    intro n a b hnd hg hab
    cases n with
    | zero =>
      simp only [List.get?_cons_zero, Option.some.injEq] at hg
      subst hg
      simp only [List.set_cons_zero, List.mem_cons]
      rintro (h | h)
      · exact hab h
      · exact (List.nodup_cons.mp hnd).1 h
    | succ m =>
      simp only [List.get?_cons_succ] at hg
      simp only [List.set_cons_succ, List.mem_cons]
      rintro (h | h)
      · exact (List.nodup_cons.mp hnd).1 (h ▸ List.get?_mem hg)
      · exact ih m a b (List.nodup_cons.mp hnd).2 hg hab h

theorem expand_shape_two (t : QTensor)
    (h : (t.expandFront.expandBack).shape = [1, 2, 1]) : t.shape = [2] := by
  simp only [QTensor.expandFront, QTensor.expandBack] at h
  cases hs : t.shape with
  | nil => rw [hs] at h; simp at h
  | cons x xs =>
    rw [hs] at h
    cases xs with
    | nil =>
      simp only [List.cons_append, List.nil_append, List.cons.injEq] at h
      obtain ⟨-, hx, -⟩ := h
      rw [hx]
    | cons y ys => simp at h

theorem exactInitLoop_rank_of_ok :
    ∀ (items : List (QTensor × List Nat × String)) (d d' : Dev),
      exactInitLoop items d = (.ok (), d') →
      ∀ it ∈ items, it.1.rank = it.2.1.length := by
  intro items
  induction items with
  | nil => intro d d' _ it hit; cases hit
  | cons it0 rest ih =>
    intro d d' h it hit
    obtain ⟨t, ws, nm⟩ := it0
    unfold exactInitLoop at h
    split at h
    · simp at h
    · rename_i hrk
      cases hit with
      | head => exact not_not.mp hrk
      | tail _ hit => exact ih _ _ h it hit

theorem mpsInitLoop_pre_of_ok (B : TNBackend) :
    ∀ (items : List (QTensor × List Nat × String)) (acc : List ChainNode)
      (d : Dev) (ch : List ChainNode) (d' : Dev),
      mpsInitLoop B items acc d = (.ok ch, d') →
      ∀ it ∈ items, it.1.rank = it.2.1.length ∧
        (it.1.shape = [2] ∨
          (it.2.1 ≠ [] ∧ maxL it.2.1 - minL it.2.1 = it.2.1.length - 1)) := by
  intro items
  induction items with
  | nil => intro acc d ch d' _ it hit; cases hit
  | cons it0 rest ih =>
    intro acc d ch d' h it hit
    obtain ⟨t, ws, nm⟩ := it0
    unfold mpsInitLoop at h
    split at h
    · simp at h
    · rename_i hrk
      by_cases hs : (t.expandFront.expandBack).shape = [1, 2, 1]
      · simp only [if_pos hs] at h
        cases hit with
        | head => exact ⟨not_not.mp hrk, Or.inl (expand_shape_two t hs)⟩
        | tail _ hit => exact ih _ _ _ _ h it hit
      · simp only [if_neg hs] at h
        split at h
        · simp at h
        · rename_i hwe
          split at h
          · simp at h
          · rename_i hctg
            cases hit with
            | head => exact ⟨not_not.mp hrk, Or.inr ⟨hwe, not_not.mp hctg⟩⟩
            | tail _ hit => exact ih _ _ _ _ h it hit


theorem addInitialStateNodes_inv_of_ok (B : TNBackend) (ts : List QTensor)
    (ws : List (List Nat)) (ns : List String) (d d' : Dev)
    (hrep : d.rep = "exact" ∨ d.rep = "mps")
    (h : addInitialStateNodes B ts ws ns d = (.ok (), d')) :
    ts.length = ws.length ∧ ws.length = ns.length ∧
    d'.free_wire_edges.length = (ws.map List.length).sum ∧
    d'.free_wire_edges.Nodup ∧
    (∀ e ∈ d'.free_wire_edges, d.nextSerial ≤ e.1 ∧ e.1 < d'.nextSerial) ∧
    d.nextSerial ≤ d'.nextSerial ∧
    d'.connected = d.connected ∧
    d'.num_wires = d.num_wires ∧ d'.shots = d.shots ∧ d'.rep = d.rep ∧
    d'.contraction_method = d.contraction_method ∧
    d'.contracted = d.contracted ∧
    d'.nodes_observables = d.nodes_observables ∧
    (d.rep = "mps" → ∃ ch, d'.mps = some ch ∧
      ch.length = (ws.map List.length).sum ∧
      d'.free_wire_edges = ch.map (fun c => (c.1, 1)) ∧
      (∀ c ∈ ch, c.1 < d'.nextSerial)) := by
  have h0 := h
  unfold addInitialStateNodes at h
  split at h
  · simp at h
  · rename_i hg
    have hlen := not_not.mp hg
    rcases hrep with hex | hmp
    · rw [if_pos hex] at h
      have hrank := exactInitLoop_rank_of_ok _ _ _ h
      obtain ⟨d2, hrun, p1, p2, p3, p4, p5, p6, p7, p8, p9, p10, p11, p12, p13⟩ :=
        addInitialStateNodes_ok B ts ws ns d hlen.1 hlen.2
          (fun it hh => ⟨hrank it hh,
            fun hm => absurd (hex.symm.trans hm) (by decide)⟩)
          (Or.inl hex)
      have hdd : d2 = d' := congrArg Prod.snd (hrun.symm.trans h0)
      subst hdd
      exact ⟨hlen.1, hlen.2, p1, p2, p3, p4, p5, p6, p7, p8, p9, p10, p11, p13⟩
    · have hne : ¬ d.rep = "exact" := by rw [hmp]; decide
      rw [if_neg hne, if_pos hmp] at h
      split at h
      · rename_i ch d1 heq
        have hpre := mpsInitLoop_pre_of_ok B _ _ _ _ _ heq
        obtain ⟨d2, hrun, p1, p2, p3, p4, p5, p6, p7, p8, p9, p10, p11, p12,
            p13⟩ :=
          addInitialStateNodes_ok B ts ws ns d hlen.1 hlen.2
            (fun it hh => ⟨(hpre it hh).1, fun _ => (hpre it hh).2⟩)
            (Or.inr hmp)
        have hdd : d2 = d' := congrArg Prod.snd (hrun.symm.trans h0)
        subst hdd
        exact ⟨hlen.1, hlen.2, p1, p2, p3, p4, p5, p6, p7, p8, p9, p10, p11,
          p13⟩
      · simp at h


theorem addStatePrepNodes_inv_of_ok (B : TNBackend) (op : String)
    (par : List PVal) (d d' : Dev)
    (hrep : d.rep = "exact" ∨ d.rep = "mps")
    (hop : op = "QubitStateVector" ∨ op = "BasisState")
    (h : addStatePrepNodes B op par d = (.ok (), d')) :
    d'.free_wire_edges.length = d.num_wires ∧
    d'.free_wire_edges.Nodup ∧
    (∀ e ∈ d'.free_wire_edges, d.nextSerial ≤ e.1 ∧ e.1 < d'.nextSerial) ∧
    d.nextSerial ≤ d'.nextSerial ∧
    d'.connected = d.connected ∧
    d'.num_wires = d.num_wires ∧ d'.shots = d.shots ∧ d'.rep = d.rep ∧
    d'.contraction_method = d.contraction_method ∧
    (d.rep = "mps" → ∃ ch, d'.mps = some ch ∧ ch.length = d.num_wires ∧
      (∀ c ∈ ch, c.1 < d'.nextSerial)) := by
  rcases hop with hop | hop
  · subst hop
    unfold addStatePrepNodes at h
    rw [if_pos rfl] at h
    split at h
    · simp at h
    · rename_i p hp
      split at h
      · rename_i hdim
        obtain ⟨q1, q2, q3, q4, q5, q6, q7, q8, q9, q10, q11, q12, q13, q14⟩ :=
          addInitialStateNodes_inv_of_ok B _ _ _ d d' hrep h
        have hsum : (([List.range d.num_wires].map List.length)).sum
            = d.num_wires := by
          simp
        refine ⟨by rw [q3, hsum], q4, q5, q6, q7, q8, q9, q10, q11, ?_⟩
        intro hm
        obtain ⟨ch, hc1, hc2, hc3, hc4⟩ := q14 hm
        exact ⟨ch, hc1, by rw [hc2, hsum], hc4⟩
      · simp at h
  · subst hop
    unfold addStatePrepNodes at h
    rw [if_neg (by decide), if_pos rfl] at h
    split at h
    · simp at h
    · rename_i bs hp
      split at h
      · simp at h
      · rename_i hvalid
        split at h
        · simp at h
        · rename_i tsb htsb
          obtain ⟨q1, q2, q3, q4, q5, q6, q7, q8, q9, q10, q11, q12, q13,
              q14⟩ :=
            addInitialStateNodes_inv_of_ok B _ _ _ d d' hrep h
          have hsum :
              ((((List.range d.num_wires).map (fun w => [w])).map
                List.length)).sum = d.num_wires :=
            sum_singleton_groups d.num_wires
          refine ⟨by rw [q3, hsum], q4, q5, q6, q7, q8, q9, q10, q11, ?_⟩
          intro hm
          obtain ⟨ch, hc1, hc2, hc3, hc4⟩ := q14 hm
          exact ⟨ch, hc1, by rw [hc2, hsum], hc4⟩
    · simp at h


theorem lt_length_of_get?_eq_some {l : List α} {n : Nat} {a : α}
    (h : l.get? n = some a) : n < l.length := by
  by_contra hn
  rw [List.get?_eq_none.mpr (Nat.le_of_not_lt hn)] at h
  cases h

theorem gateLoopExact_inv (s k : Nat) :
    ∀ (ws : List Nat) (idx : Nat) (d d' : Dev),
      gateLoopExact s k ws idx d = (.ok (), d') →
      idx + ws.length ≤ k →
      (∀ e ∈ d.free_wire_edges, e.1 < s ∨ (e.1 = s ∧ e.2 < idx)) →
      (∀ e ∈ d.connected, e.1 < s ∨ (e.1 = s ∧ (k ≤ e.2 ∨ e.2 < idx))) →
      d.free_wire_edges.Nodup →
      (∀ e ∈ d.free_wire_edges, e ∉ d.connected) →
      (d'.free_wire_edges.length = d.free_wire_edges.length ∧
       (∀ e ∈ d'.free_wire_edges, e.1 < s ∨ (e.1 = s ∧ e.2 < k)) ∧
       (∀ e ∈ d'.connected, e.1 ≤ s) ∧
       d'.free_wire_edges.Nodup ∧
       (∀ e ∈ d'.free_wire_edges, e ∉ d'.connected) ∧
       (∀ w, w ∉ ws → d'.free_wire_edges.get? w = d.free_wire_edges.get? w) ∧
       (∀ w ∈ ws, ∃ j, d'.free_wire_edges.get? w = some (s, j) ∧ j < k) ∧
       d'.num_wires = d.num_wires ∧ d'.shots = d.shots ∧ d'.rep = d.rep ∧
       d'.contraction_method = d.contraction_method ∧
       d'.nodes_state = d.nodes_state ∧
       d'.nodes_observables = d.nodes_observables ∧
       d'.mps = d.mps ∧ d'.contracted = d.contracted ∧
       d'.nextSerial = d.nextSerial) := by
  intro ws
  induction ws with
  | nil =>
    intro idx d d' h harith hfree hconn hnd hdang
    have hd : d = d' := congrArg Prod.snd h
    subst hd
    refine ⟨rfl, ?_, ?_, hnd, hdang, fun _ _ => rfl, ?_, rfl, rfl, rfl, rfl,
      rfl, rfl, rfl, rfl, rfl⟩
    · intro e he
      rcases hfree e he with h1 | ⟨h1, h2⟩
      · exact Or.inl h1
      · exact Or.inr ⟨h1, by omega⟩
    · intro e he
      rcases hconn e he with h1 | ⟨h1, -⟩
      · omega
      · omega
    · intro w hw
      cases hw
  | cons w rest ih =>
    intro idx d d' h harith hfree hconn hnd hdang
    unfold gateLoopExact at h
    split at h
    · simp at h
    · rename_i e he
      have hwlt : w < d.free_wire_edges.length := lt_length_of_get?_eq_some he
      have he_mem : e ∈ d.free_wire_edges := List.get?_mem he
      have hidx_lt : idx < k := by
        simp only [List.length_cons] at harith
        omega
      have hes := hfree e he_mem
      have hene : e ≠ (s, idx) := by
        rcases hes with h1 | ⟨h1, h2⟩
        · intro hh; rw [hh] at h1; simp at h1
        · intro hh; rw [hh] at h2; simp at h2
      have harith2 : (idx + 1) + rest.length ≤ k := by
        simp only [List.length_cons] at harith
        omega
      have hfree2 : ∀ f ∈ (d.free_wire_edges.set w (s, idx)),
          f.1 < s ∨ (f.1 = s ∧ f.2 < idx + 1) := by
        intro f hf
        rcases List.mem_or_eq_of_mem_set hf with hm | hm
        · rcases hfree f hm with h1 | ⟨h1, h2⟩
          · exact Or.inl h1
          · exact Or.inr ⟨h1, by omega⟩
        · rw [hm]
          exact Or.inr ⟨rfl, by omega⟩
      have hconn2 : ∀ f ∈ ((s, k + idx) :: e :: d.connected),
          f.1 < s ∨ (f.1 = s ∧ (k ≤ f.2 ∨ f.2 < idx + 1)) := by
        intro f hf
        simp only [List.mem_cons] at hf
        rcases hf with hf | hf | hf
        · rw [hf]
          exact Or.inr ⟨rfl, Or.inl (by omega)⟩
        · rw [hf]
          rcases hes with h1 | ⟨h1, h2⟩
          · exact Or.inl h1
          · exact Or.inr ⟨h1, Or.inr (by omega)⟩
        · rcases hconn f hf with h1 | ⟨h1, h2⟩
          · exact Or.inl h1
          · rcases h2 with h2 | h2
            · exact Or.inr ⟨h1, Or.inl h2⟩
            · exact Or.inr ⟨h1, Or.inr (by omega)⟩
      have hnotmem : ((s, idx) : EdgeId) ∉ d.free_wire_edges := by
        intro hm
        rcases hfree _ hm with h1 | ⟨h1, h2⟩
        · simp at h1
        · simp at h2
      have hnd2 : (d.free_wire_edges.set w (s, idx)).Nodup :=
        nodup_set_of_not_mem _ _ _ hnd hnotmem
      have hdang2 : ∀ f ∈ (d.free_wire_edges.set w (s, idx)),
          f ∉ ((s, k + idx) :: e :: d.connected) := by
        intro f hf hc
        have hf' := List.mem_or_eq_of_mem_set hf
        simp only [List.mem_cons] at hc
        rcases hc with hc | hc | hc
        · rcases hf' with hm | hm
          · rcases hfree f hm with h1 | ⟨h1, h2⟩
            · rw [hc] at h1; simp at h1
            · rw [hc] at h2
              simp only at h2
              omega
          · have hji : idx = k + idx := congrArg Prod.snd (hm.symm.trans hc)
            omega
        · rcases hf' with hm | hm
          · have hnm := not_mem_set_of_nodup d.free_wire_edges w e (s, idx)
              hnd he hene
            rw [hc] at hf
            exact hnm hf
          · have hce : e = (s, idx) := (hm.symm.trans hc).symm
            exact hene hce
        · rcases hf' with hm | hm
          · exact hdang f hm hc
          · rcases hconn f hc with h1 | ⟨h1, h2⟩
            · rw [hm] at h1; simp at h1
            · rw [hm] at h2
              simp only at h2
              omega
      obtain ⟨ilen, ifree, iconn, ind, idang, iunch, imem, inw, ish, irep,
        icm, ins, ino, imps, ictr, iser⟩ :=
        ih (idx + 1)
          { d with
            connected := (s, k + idx) :: e :: d.connected
            free_wire_edges := d.free_wire_edges.set w (s, idx) }
          d' h harith2 hfree2 hconn2 hnd2 hdang2
      refine ⟨?_, ifree, iconn, ind, idang, ?_, ?_, inw, ish, irep, icm, ins,
        ino, imps, ictr, iser⟩
      · rw [ilen]
        exact List.length_set d.free_wire_edges w (s, idx)
      · intro w' hw'
        have hwne : w ≠ w' := fun hh => hw' (hh ▸ List.mem_cons_self w rest)
        have hwr : w' ∉ rest := fun hh => hw' (List.mem_cons_of_mem w hh)
        rw [iunch w' hwr]
        exact get?_set_ne d.free_wire_edges w w' (s, idx) hwne
      · intro w' hw'
        rcases List.mem_cons.mp hw' with hw'' | hw''
        · subst hw''
          by_cases hwr : w' ∈ rest
          · exact imem w' hwr
          · refine ⟨idx, ?_, hidx_lt⟩
            rw [iunch w' hwr]
            exact get?_set_self d.free_wire_edges w' (s, idx) hwlt
        · exact imem w' hw''


theorem addGateNodes_inv (cat : Catalog) (B : TNBackend) (op : String)
    (wires : List Nat) (par : List PVal) (d d' : Dev)
    (hinv : DevInv d)
    (h : addGateNodes cat B op wires par d = (.ok (), d')) :
    DevInv d' ∧
    d'.num_wires = d.num_wires ∧ d'.shots = d.shots ∧ d'.rep = d.rep ∧
    d'.contraction_method = d.contraction_method ∧
    d'.free_wire_edges.length = d.free_wire_edges.length ∧
    (∀ w, w ∉ wires → d'.free_wire_edges.get? w = d.free_wire_edges.get? w) ∧
    (∀ w ∈ wires, ∃ e2, d'.free_wire_edges.get? w = some e2 ∧
      e2 ∉ d.free_wire_edges) := by
  obtain ⟨⟨hlen, hnd, hdang⟩, ⟨hfser, hcser, hchain⟩, hrepv⟩ := hinv
  unfold addGateNodes at h
  split at h
  · simp at h
  · rename_i f hlk
    by_cases hdim : (f par).dim = 2 ^ wires.length
    · rcases hrepv with hex | hmp
      · simp only [if_pos hdim] at h
        rw [if_pos hex] at h
        obtain ⟨ilen, ifree, iconn, ind, idang, iunch, imem, inw, ish, irep,
          icm, ins, ino, imps, ictr, iser⟩ :=
          gateLoopExact_inv d.nextSerial wires.length wires 0
            (addNode ⟨List.replicate (2 * wires.length) 2, (f par).data⟩
              wires op "state" d).2 d' h
            (by omega)
            (fun e he => Or.inl (hfser e he))
            (fun e he => Or.inl (hcser e he))
            hnd hdang
        have ilen' : d'.free_wire_edges.length = d.free_wire_edges.length :=
          ilen
        have iser' : d'.nextSerial = d.nextSerial + 1 := iser
        have inw' : d'.num_wires = d.num_wires := inw
        have irep' : d'.rep = d.rep := irep
        refine ⟨⟨⟨?_, ind, idang⟩, ⟨?_, ?_, ?_⟩, ?_⟩, inw', ish, irep', icm,
          ilen', iunch, ?_⟩
        · rw [ilen', hlen, inw']
        · intro e he
          rcases ifree e he with h1 | ⟨h1, -⟩
          · omega
          · omega
        · intro e he
          have := iconn e he
          omega
        · intro hm
          rw [irep', hex] at hm
          exact absurd hm (by decide)
        · exact Or.inl (irep'.trans hex)
        · intro w hw
          obtain ⟨j, hj, hjk⟩ := imem w hw
          refine ⟨(d.nextSerial, j), hj, ?_⟩
          intro hmem
          have := hfser _ hmem
          simp only at this
          omega
      · have hne : ¬ d.rep = "exact" := by rw [hmp]; decide
        cases wires with
        | nil =>
          simp only [if_pos hdim] at h
          rw [if_neg hne, if_pos hmp] at h
          simp at h
        | cons w1 wrest =>
          cases wrest with
          | nil =>
            simp only [if_pos hdim] at h
            rw [if_neg hne, if_pos hmp] at h
            simp only [addNode, reduceIte] at h
            split at h
            · simp at h
            · rename_i chain hchm
              split at h
              · simp at h
              · rename_i cn hcn
                have hd' : d' = _ := (congrArg Prod.snd h).symm
                subst hd'
                have hclen : chain.length = d.num_wires :=
                  hchain hmp chain hchm
                have hw1 : w1 < d.free_wire_edges.length := by
                  have := lt_length_of_get?_eq_some hcn
                  omega
                have hsfresh : ((d.nextSerial + 1, 1) : EdgeId)
                    ∉ d.free_wire_edges := by
                  intro hm
                  have := hfser _ hm
                  simp only at this
                  omega
                refine ⟨⟨⟨?_, ?_, ?_⟩, ⟨?_, ?_, ?_⟩, Or.inr hmp⟩, rfl, rfl,
          rfl, rfl, ?_, ?_, ?_⟩
                · show (d.free_wire_edges.set w1 (d.nextSerial + 1, 1)).length
                    = d.num_wires
                  rw [List.length_set]
                  exact hlen
                · show (d.free_wire_edges.set w1 (d.nextSerial + 1, 1)).Nodup
                  exact nodup_set_of_not_mem _ _ _ hnd hsfresh
                · intro e he hc
                  have he' : e ∈ d.free_wire_edges.set w1
                      (d.nextSerial + 1, 1) := he
                  have hc' : e ∈ d.connected := hc
                  rcases List.mem_or_eq_of_mem_set he' with hm | hm
                  · exact hdang e hm hc'
                  · rw [hm] at hc'
                    have := hcser _ hc'
                    simp only at this
                    omega
                · intro e he
                  have he' : e ∈ d.free_wire_edges.set w1
                      (d.nextSerial + 1, 1) := he
                  show e.1 < d.nextSerial + 1 + 1
                  rcases List.mem_or_eq_of_mem_set he' with hm | hm
                  · have := hfser _ hm
                    omega
                  · rw [hm]
                    show d.nextSerial + 1 < d.nextSerial + 1 + 1
                    omega
                · intro e he
                  have he' : e ∈ d.connected := he
                  show e.1 < d.nextSerial + 1 + 1
                  have := hcser _ he'
                  omega
                · intro hm' ch' hch'
                  have h6 : some (chain.set w1 (d.nextSerial + 1,
                      B.oneSite _ cn.2)) = some ch' := hch'
                  have h7 := Option.some.inj h6
                  show ch'.length = d.num_wires
                  rw [← h7, List.length_set]
                  exact hclen
                · show (d.free_wire_edges.set w1 (d.nextSerial + 1, 1)).length
                    = d.free_wire_edges.length
                  rw [List.length_set]
                · intro w hw
                  simp only [List.mem_singleton] at hw
                  show (d.free_wire_edges.set w1
                      (d.nextSerial + 1, 1)).get? w = d.free_wire_edges.get? w
                  exact get?_set_ne _ _ _ _ (fun hh => hw hh.symm)
                · intro w hw
                  simp only [List.mem_singleton] at hw
                  subst hw
                  refine ⟨(d.nextSerial + 1, 1), ?_, hsfresh⟩
                  show (d.free_wire_edges.set w
                      (d.nextSerial + 1, 1)).get? w = some (d.nextSerial + 1, 1)
                  exact get?_set_self _ _ _ hw1
          | cons w2 wrest2 =>
            cases wrest2 with
            | nil =>
              simp only [if_pos hdim] at h
              rw [if_neg hne, if_pos hmp] at h
              simp only [addNode, reduceIte] at h
              split at h
              · rename_i hdist
                split at h
                · simp at h
                · rename_i chain hchm
                  split at h
                  · rename_i c1 c2 hc1 hc2
                    have hd' : d' = _ := (congrArg Prod.snd h).symm
                    subst hd'
                    have hclen : chain.length = d.num_wires :=
                      hchain hmp chain hchm
                    have hw1 : w1 < d.free_wire_edges.length := by
                      have := lt_length_of_get?_eq_some hc1
                      omega
                    have hw2 : w2 < d.free_wire_edges.length := by
                      have := lt_length_of_get?_eq_some hc2
                      omega
                    have hw12 : w1 ≠ w2 := by
                      intro hh
                      rw [hh] at hdist
                      simp at hdist
                    have hfresh1 : ((d.nextSerial + 1, 1) : EdgeId)
                        ∉ d.free_wire_edges := by
                      intro hm
                      have := hfser _ hm
                      simp only at this
                      omega
                    have hfresh2 : ((d.nextSerial + 1 + 1, 1) : EdgeId)
                        ∉ d.free_wire_edges := by
                      intro hm
                      have := hfser _ hm
                      simp only at this
                      omega
                    have hfresh2' : ((d.nextSerial + 1 + 1, 1) : EdgeId)
                        ∉ d.free_wire_edges.set w1 (d.nextSerial + 1, 1) := by
                      intro hm
                      rcases List.mem_or_eq_of_mem_set hm with hm | hm
                      · exact hfresh2 hm
                      · have := congrArg Prod.fst hm
                        simp only at this
                        omega
                    refine ⟨⟨⟨?_, ?_, ?_⟩, ⟨?_, ?_, ?_⟩, Or.inr hmp⟩, rfl,
            rfl, rfl, rfl, ?_, ?_, ?_⟩
                    · show ((d.free_wire_edges.set w1
                          (d.nextSerial + 1, 1)).set w2
                          (d.nextSerial + 1 + 1, 1)).length = d.num_wires
                      rw [List.length_set, List.length_set]
                      exact hlen
                    · show ((d.free_wire_edges.set w1
                          (d.nextSerial + 1, 1)).set w2
                          (d.nextSerial + 1 + 1, 1)).Nodup
                      exact nodup_set_of_not_mem _ _ _
                        (nodup_set_of_not_mem _ _ _ hnd hfresh1) hfresh2'
                    · intro e he hc
                      have he' : e ∈ (d.free_wire_edges.set w1
                          (d.nextSerial + 1, 1)).set w2
                          (d.nextSerial + 1 + 1, 1) := he
                      have hc' : e ∈ d.connected := hc
                      rcases List.mem_or_eq_of_mem_set he' with hm | hm
                      · rcases List.mem_or_eq_of_mem_set hm with hm2 | hm2
                        · exact hdang e hm2 hc'
                        · rw [hm2] at hc'
                          have := hcser _ hc'
                          simp only at this
                          omega
                      · rw [hm] at hc'
                        have := hcser _ hc'
                        simp only at this
                        omega
                    · intro e he
                      have he' : e ∈ (d.free_wire_edges.set w1
                          (d.nextSerial + 1, 1)).set w2
                          (d.nextSerial + 1 + 1, 1) := he
                      show e.1 < d.nextSerial + 1 + 1 + 1
                      rcases List.mem_or_eq_of_mem_set he' with hm | hm
                      · rcases List.mem_or_eq_of_mem_set hm with hm2 | hm2
                        · have := hfser _ hm2
                          omega
                        · rw [hm2]
                          show d.nextSerial + 1 < d.nextSerial + 1 + 1 + 1
                          omega
                      · rw [hm]
                        show d.nextSerial + 1 + 1 < d.nextSerial + 1 + 1 + 1
                        omega
                    · intro e he
                      have he' : e ∈ d.connected := he
                      show e.1 < d.nextSerial + 1 + 1 + 1
                      have := hcser _ he'
                      omega
                    · intro hm' ch' hch'
                      have h6 : some ((chain.set w1 (d.nextSerial + 1,
                          (B.twoSite _ c1.2 c2.2).1)).set w2
                          (d.nextSerial + 1 + 1,
                          (B.twoSite _ c1.2 c2.2).2)) = some ch' := hch'
                      have h7 := Option.some.inj h6
                      show ch'.length = d.num_wires
                      rw [← h7, List.length_set, List.length_set]
                      exact hclen
                    · show ((d.free_wire_edges.set w1
                          (d.nextSerial + 1, 1)).set w2
                          (d.nextSerial + 1 + 1, 1)).length
                        = d.free_wire_edges.length
                      rw [List.length_set, List.length_set]
                    · intro w hw
                      have hne1 : w ≠ w1 := by
                        intro hh
                        subst hh
                        exact hw (List.mem_cons_self _ _)
                      have hne2 : w ≠ w2 := by
                        intro hh
                        subst hh
                        exact hw
                          (List.mem_cons_of_mem _ (List.mem_cons_self _ _))
                      show (((d.free_wire_edges.set w1
                          (d.nextSerial + 1, 1)).set w2
                          (d.nextSerial + 1 + 1, 1)).get? w)
                        = d.free_wire_edges.get? w
                      rw [get?_set_ne _ _ _ _ (fun hh => hne2 hh.symm),
                        get?_set_ne _ _ _ _ (fun hh => hne1 hh.symm)]
                    · intro w hw
                      rcases List.mem_cons.mp hw with hw1' | hw1'
                      · subst hw1'
                        refine ⟨(d.nextSerial + 1, 1), ?_, hfresh1⟩
                        show (((d.free_wire_edges.set w
                            (d.nextSerial + 1, 1)).set w2
                            (d.nextSerial + 1 + 1, 1)).get? w)
                          = some (d.nextSerial + 1, 1)
                        rw [get?_set_ne _ _ _ _ hw12.symm]
                        exact get?_set_self _ _ _ hw1
                      · rcases List.mem_cons.mp hw1' with hw2' | hw2'
                        · subst hw2'
                          refine ⟨(d.nextSerial + 1 + 1, 1), ?_, hfresh2⟩
                          show (((d.free_wire_edges.set w1
                              (d.nextSerial + 1, 1)).set w
                              (d.nextSerial + 1 + 1, 1)).get? w)
                            = some (d.nextSerial + 1 + 1, 1)
                          exact get?_set_self _ _ _ (by
                            rw [List.length_set]
                            exact hw2)
                        · cases hw2'
                  · simp at h
              · simp at h
            | cons w3 wrest3 =>
              simp only [if_pos hdim] at h
              rw [if_neg hne, if_pos hmp] at h
              simp at h
    · simp only [if_neg hdim] at h
      exact absurd (congrArg Prod.fst h) (by simp)

theorem apply_inv (cat : Catalog) (B : TNBackend) (op : String)
    (ws : List Nat) (par : List PVal) (d d' : Dev) (hinv : DevInv d)
    (h : apply cat B op ws par d = (.ok (), d')) :
    DevInv d' ∧ d'.num_wires = d.num_wires ∧ d'.rep = d.rep ∧
    d'.shots = d.shots ∧ d'.contraction_method = d.contraction_method := by
  unfold apply at h
  split at h
  · rename_i hop
    split at h
    · simp at h
    · obtain ⟨⟨hlen, hnd, hdang⟩, ⟨hfser, hcser, hchain⟩, hrepv⟩ := hinv
      obtain ⟨q1, q2, q3, q4, q5, q6, q7, q8, q9, q10⟩ :=
        addStatePrepNodes_inv_of_ok B op par (clearNetworkData d) d' hrepv
          hop h
      have q5' : d'.connected = d.connected := q5
      have q6' : d'.num_wires = d.num_wires := q6
      have q8' : d'.rep = d.rep := q8
      refine ⟨⟨⟨?_, q2, ?_⟩, ⟨?_, ?_, ?_⟩, ?_⟩, q6', q8', q7, q9⟩
      · rw [q1, q6']
        rfl
      · intro e he hc
        rw [q5'] at hc
        have h1 := (q3 e he).1
        have h2 := hcser e hc
        have h3 : (clearNetworkData d).nextSerial = d.nextSerial := rfl
        omega
      · intro e he
        exact (q3 e he).2
      · intro e he
        rw [q5'] at he
        have h1 := hcser e he
        have h2 := q4
        have h3 : (clearNetworkData d).nextSerial = d.nextSerial := rfl
        omega
      · intro hm ch hch
        have hm' : d.rep = "mps" := q8'.symm.trans hm
        obtain ⟨ch0, hch0, hlen0, -⟩ := q10 hm'
        rw [hch0] at hch
        cases hch
        rw [hlen0, q6']
        rfl
      · rcases hrepv with hx | hx
        · exact Or.inl (q8'.trans hx)
        · exact Or.inr (q8'.trans hx)
  · rename_i hop
    obtain ⟨hi, hnw, hsh, hrep, hcm, -, -, -⟩ :=
      addGateNodes_inv cat B op ws par d d' hinv h
    exact ⟨hi, hnw, hrep, hsh, hcm⟩

theorem stepOp_inv (cat : Catalog) (B : TNBackend) (t : TOp) (d d' : Dev)
    (hinv : DevInv d) (h : stepOp cat B t d = (.ok (), d')) :
    DevInv d' ∧ d'.num_wires = d.num_wires ∧ d'.rep = d.rep ∧
    d'.shots = d.shots ∧ d'.contraction_method = d.contraction_method := by
  cases t with
  | reset =>
    obtain ⟨⟨hlen, hnd, hdang⟩, ⟨hfser, hcser, hchain⟩, hrepv⟩ := hinv
    obtain ⟨d2, hrun, hinv2, hnw, hsh, hrep, hcm, hctr⟩ :=
      resetDev_inv B d hrepv hcser
    have hdd : d2 = d' := congrArg Prod.snd (hrun.symm.trans h)
    subst hdd
    exact ⟨hinv2, hnw, hrep, hsh, hcm⟩
  | app op ws par => exact apply_inv cat B op ws par d d' hinv h

theorem runTrace_inv (cat : Catalog) (B : TNBackend) :
    ∀ (tr : List TOp) (d d' : Dev), DevInv d →
      runTrace cat B tr d = some d' → DevInv d' ∧ d'.num_wires = d.num_wires := by
  intro tr
  induction tr with
  | nil =>
    intro d d' hinv h
    cases h
    exact ⟨hinv, rfl⟩
  | cons t ts ih =>
    intro d d' hinv h
    unfold runTrace at h
    split at h
    · rename_i u d1 hstep
      obtain ⟨hinv1, hnw, -, -, -⟩ := stepOp_inv cat B t d d1 hinv hstep
      obtain ⟨hinv2, hnw2⟩ := ih d1 d' hinv1 h
      exact ⟨hinv2, hnw2.trans hnw⟩
    · cases h

/-- C6: after construction, after reset, and after every successful state
preparation or gate application (any successful trace of the mutating entry
points), the wire-edge table has exactly one entry per wire: its length is the
wire count, no entry is duplicated, and every entry is a currently-dangling
edge; and each gate application replaces -- and never duplicates -- the entries
for exactly the wires it acts on: entries of untouched wires are unchanged,
while each acted-on wire receives one fresh edge that was not in the table
before. -/
theorem C6_wire_edge_table_invariant (cat : Catalog) (B : TNBackend) :
    (∀ (n shots : Nat) (rep cm : String) (d0 : Dev),
        rep = "exact" ∨ rep = "mps" →
        dinit B n shots rep cm = .ok d0 → DevInv d0) ∧
    (∀ (tr : List TOp) (d0 d : Dev), DevInv d0 →
        runTrace cat B tr d0 = some d →
        d.free_wire_edges.length = d.num_wires ∧
        d.free_wire_edges.Nodup ∧
        (∀ e ∈ d.free_wire_edges, dangling d e)) ∧
    (∀ (op : String) (ws : List Nat) (par : List PVal) (d d' : Dev),
        DevInv d → op ≠ "QubitStateVector" → op ≠ "BasisState" →
        apply cat B op ws par d = (.ok (), d') →
        d'.free_wire_edges.length = d.free_wire_edges.length ∧
        (∀ w, w ∉ ws → d'.free_wire_edges.get? w = d.free_wire_edges.get? w) ∧
        (∀ w ∈ ws, ∃ e2, d'.free_wire_edges.get? w = some e2 ∧
          e2 ∉ d.free_wire_edges)) := by
  refine ⟨?_, ?_, ?_⟩
  · intro n shots rep cm d0 hrep hinit
    obtain ⟨d2, hrun, hinv, -, -, -, -, -⟩ := dinit_inv B n shots rep cm hrep
    have hdd : d2 = d0 := Except.ok.inj (hrun.symm.trans hinit)
    subst hdd
    exact hinv
  · intro tr d0 d hinv h
    obtain ⟨⟨⟨w1, w2, w3⟩, -, -⟩, -⟩ := runTrace_inv cat B tr d0 d hinv h
    exact ⟨w1, w2, w3⟩
  · intro op ws par d d' hinv hop1 hop2 h
    unfold apply at h
    rw [if_neg (by rintro (hx | hx); exacts [hop1 hx, hop2 hx])] at h
    obtain ⟨-, -, -, -, -, hl, hu, hm⟩ :=
      addGateNodes_inv cat B op ws par d d' hinv h
    exact ⟨hl, hu, hm⟩

theorem C6_witness :
    ∃ d, runTrace cat0 B0 [TOp.app "PauliX" [0] []] devEx1 = some d ∧
      d.free_wire_edges.length = d.num_wires ∧
      d.free_wire_edges.Nodup ∧
      (∀ e ∈ d.free_wire_edges, dangling d e) := by
  cases hr : runTrace cat0 B0 [TOp.app "PauliX" [0] []] devEx1 with
  | none => exact absurd hr (by decide)
  | some d =>
    exact ⟨d, rfl,
      (C6_wire_edge_table_invariant cat0 B0).2.1
        [TOp.app "PauliX" [0] []] devEx1 d
        (by unfold DevInv WireTableInv SerialInv dangling; decide) hr⟩


theorem cartProd_length_mem :
    ∀ (ls : List (List α)) (c : List α), c ∈ cartProd ls →
      c.length = ls.length := by
  intro ls
  induction ls with
  | nil =>
    intro c hc
    simp only [cartProd, List.mem_singleton] at hc
    rw [hc]
    rfl
  | cons xs rest ih =>
    intro c hc
    simp only [cartProd, List.mem_flatMap, List.mem_map] at hc
    obtain ⟨x, hx, c', hc', hcc⟩ := hc
    rw [← hcc]
    simp only [List.length_cons, ih c' hc']

theorem cartProd_map (f : α → β) :
    ∀ (ls : List (List α)),
      cartProd (ls.map (List.map f)) = (cartProd ls).map (List.map f) := by
  intro ls
  induction ls with
  | nil => rfl
  | cons xs rest ih =>
    simp only [List.map_cons, cartProd, ih, List.flatMap_map, List.map_flatMap,
      List.map_map]
    rfl

theorem cartProd_proj_zip :
    ∀ (decs : List (List (ℤ × CMat))) (wires : List (List Nat)),
      decs.length = wires.length →
      cartProd (((decs.map (List.map Prod.snd)).zip wires).map
          (fun gw => gw.1.map (fun p => (p, gw.2))))
        = (cartProd decs).map (fun c => projsOfCombo c wires) := by
  intro decs
  induction decs with
  | nil =>
    intro wires hl
    cases wires with
    | nil => rfl
    | cons w ws => simp at hl
  | cons g rest ih =>
    intro wires hl
    cases wires with
    | nil => simp at hl
    | cons w ws =>
      simp only [List.length_cons] at hl
      have hih : cartProd (List.map (fun gw => List.map (fun p => (p, gw.2))
          gw.1) (List.zipWith Prod.mk (List.map (List.map Prod.snd) rest) ws))
          = List.map (fun c => projsOfCombo c ws) (cartProd rest) :=
        ih ws (by omega)
      simp only [List.map_cons, List.zip_cons_cons, cartProd]
      rw [hih]
      simp only [List.map_map, List.flatMap_map, List.map_flatMap]
      rfl

theorem npChoice_ok (outcomes : List ℤ) (shots : Nat) (p : List ℤ)
    (rng : Nat → Nat) (vs : List ℤ)
    (h : npChoice outcomes shots p rng = .ok vs) :
    vs.length = shots ∧ (∀ x ∈ vs, x ∈ outcomes) ∧
    p.length = outcomes.length := by
  unfold npChoice at h
  split at h
  · cases h
  · rename_i hne
    split at h
    · cases h
    · rename_i hpl
      split at h
      · cases h
      · split at h
        · cases h
        · have hv := Except.ok.inj h
          subst hv
          refine ⟨by simp, ?_, not_not.mp hpl⟩
          intro x hx
          simp only [List.mem_map, List.mem_range] at hx
          obtain ⟨i, -, hxi⟩ := hx
          have hpos : 0 < outcomes.length := List.length_pos.mpr hne
          have hlt : rng i % outcomes.length < outcomes.length :=
            Nat.mod_lt _ hpos
          rw [← hxi, List.getD_eq_getElem outcomes 0 hlt]
          exact List.getElem_mem hlt


theorem buildProjNodes_char :
    ∀ (projs : List (CMat × List Nat)) (d : Dev) (nds : List Node)
      (wss : List (List Nat)) (d1 : Dev),
      buildProjNodes projs d = (.ok (nds, wss), d1) →
      nds.map Node.tensor = projs.map (fun pw =>
        (⟨List.replicate (2 * pw.2.length) 2, pw.1.data⟩ : QTensor)) ∧
      wss = projs.map Prod.snd ∧
      nds.length = projs.length ∧
      d1.rep = d.rep ∧ d1.num_wires = d.num_wires ∧ d1.shots = d.shots ∧
      d1.contraction_method = d.contraction_method ∧
      d1.nodes_state = d.nodes_state ∧
      d1.free_wire_edges = d.free_wire_edges ∧ d1.mps = d.mps ∧
      d1.contracted = d.contracted ∧ d1.connected = d.connected := by
  intro projs
  induction projs with
  | nil =>
    intro d nds wss d1 h
    have h' : ((Except.ok ([], []) : Except Err (List Node × List (List Nat))),
        d) = (.ok (nds, wss), d1) := h
    injection h' with ha hb
    injection ha with hc
    injection hc with hn hw
    subst hn
    subst hw
    subst hb
    exact ⟨rfl, rfl, rfl, rfl, rfl, rfl, rfl, rfl, rfl, rfl, rfl, rfl⟩
  | cons pw rest ih =>
    intro d nds wss d1 h
    obtain ⟨proj, ws⟩ := pw
    unfold buildProjNodes at h
    split at h
    · rename_i hdim
      simp only [] at h
      split at h
      · rename_i nds' wss' d2 heq
        injection h with ha hb
        injection ha with hc
        injection hc with hn hw
        subst hn
        subst hw
        subst hb
        obtain ⟨q1, q2, q3, q4, q5, q6, q7, q8, q9, q10, q11, q12⟩ :=
          ih _ _ _ _ heq
        refine ⟨?_, ?_, ?_, ?_, ?_, ?_, ?_, ?_, ?_, ?_, ?_, ?_⟩
        · simp only [List.map_cons, q1]
          rfl
        · simp only [List.map_cons]
          rw [q2]
        · simp only [List.length_cons, q3]
        · rw [q4]; rfl
        · rw [q5]; rfl
        · rw [q6]; rfl
        · rw [q7]; rfl
        · rw [q8]; simp [addNode]
        · rw [q9]; rfl
        · rw [q10]; rfl
        · rw [q11]; rfl
        · rw [q12]; rfl
      · simp at h
    · simp at h

theorem samplePrbLoop_char (B : TNBackend) :
    ∀ (projss : List (List (CMat × List Nat))) (d : Dev) (vs : List ℤ)
      (d' : Dev),
      samplePrbLoop B projss d = (.ok vs, d') →
      vs.length = projss.length ∧
      (∀ X, evValue B d' X = evValue B d X) ∧
      (∀ i projs, projss.get? i = some projs →
        vs.get? i = evValue B d (projs.map (fun pw =>
          (⟨List.replicate (2 * pw.2.length) 2, pw.1.data⟩, pw.2)))) := by
  intro projss
  induction projss with
  | nil =>
    intro d vs d' h
    have h' : ((Except.ok [] : Except Err (List ℤ)), d) = (.ok vs, d') := h
    injection h' with ha hb
    injection ha with hv
    subst hv
    subst hb
    exact ⟨rfl, fun X => rfl, fun i projs hi => by cases hi⟩
  | cons projs rest ih =>
    intro d vs d' h
    unfold samplePrbLoop at h
    split at h
    · simp at h
    · rename_i nds wss d1 heqb
      split at h
      · simp at h
      · rename_i v d2 heqe
        split at h
        · rename_i vs' d3 heqr
          injection h with ha hb
          injection ha with hv
          subst hv
          subst hb
          obtain ⟨q1, q2, q3, q4, q5, q6, q7, q8, q9, q10, q11, q12⟩ :=
            buildProjNodes_char projs d nds wss d1 heqb
          have hlen1 : nds.length = wss.length := by
            rw [q3, q2, List.length_map]
          have hevd1 : ∀ X, evValue B d1 X = evValue B d X := fun X =>
            evValue_stable B d d1 q4 q5 q7 q8 q10 (Or.inl q11) X
          obtain ⟨hF, hC, hval⟩ := ev_run B nds wss d1 hlen1
          have heve : (ev B nds wss d1).1 = .ok v := by rw [heqe]
          have hd2 : (ev B nds wss d1).2 = d2 := by rw [heqe]
          have hevd2 : ∀ X, evValue B d2 X = evValue B d1 X := fun X => by
            rw [← hd2]
            exact evValue_after_ev B nds wss d1 hlen1 X
          obtain ⟨r1, r2, r3⟩ := ih d2 vs' d3 heqr
          have hv : evValue B d1 ((nds.map Node.tensor).zip wss) = some v :=
            (hval v).mp heve
          have hobs : (nds.map Node.tensor).zip wss
              = projs.map (fun pw =>
                ((⟨List.replicate (2 * pw.2.length) 2, pw.1.data⟩ : QTensor),
                  pw.2)) := by
            rw [q1, q2]
            exact List.zip_map' _ _ projs
          refine ⟨?_, ?_, ?_⟩
          · simp only [List.length_cons, r1]
          · intro X
            rw [r2 X, hevd2 X, hevd1 X]
          · intro i ps hi
            cases i with
            | zero =>
              simp only [List.get?_cons_zero, Option.some.injEq] at hi
              subst hi
              simp only [List.get?_cons_zero]
              rw [← hevd1]
              rw [← hobs]
              exact hv.symm
            | succ n =>
              simp only [List.get?_cons_succ] at hi
              simp only [List.get?_cons_succ]
              rw [r3 n ps hi, hevd2, hevd1]
        · simp at h


/-- C7: sample returns a sequence of exactly shot-count real values, each the
product over the requested observables of one eigenvalue per observable; the
joint outcomes are (the outcome products of) the lexicographic Cartesian
product of the observables' spectral decompositions, and the sampling weights
handed to the random draw are the expectation values of the correspondingly
ordered Cartesian product of spectral projectors, in matching order, with the
probabilities used exactly as computed (npChoice validates but never
renormalizes them). -/
theorem C7_sample_distribution (cat : Catalog) (B : TNBackend)
    (sd : SpecDecomp) (rng : Nat → Nat) (obs : List String)
    (wires : List (List Nat)) (par : List (List PVal)) (d : Dev) (vs : List ℤ)
    (hlo : obs.length = wires.length) (hlp : obs.length = par.length)
    (h : (sample cat B sd rng obs wires par d).1 = .ok vs) :
    ∃ mats probs,
      resolveMatrices cat (obs.zip par) = .ok mats ∧
      npChoice ((sampleCombos sd mats).map comboOutcome) d.shots probs rng
        = .ok vs ∧
      vs.length = d.shots ∧
      (∀ x ∈ vs, ∃ c ∈ sampleCombos sd mats, x = comboOutcome c ∧
        c.length = mats.length) ∧
      probs.length = (sampleCombos sd mats).length ∧
      (∀ i c, (sampleCombos sd mats).get? i = some c →
        probs.get? i = evValue B d (comboObs c wires)) := by
  cases hmats : resolveMatrices cat (obs.zip par) with
  | error e =>
    exfalso
    unfold sample at h
    simp only [hmats] at h
    exact Except.noConfusion h
  | ok mats =>
    unfold sample at h
    simp only [hmats] at h
    split at h
    · simp at h
    · rename_i probs d1 heqp
      have hnp : npChoice
          ((cartProd ((mats.map sd).map (List.map Prod.fst))).map prodZ)
          d.shots probs rng = .ok vs := h
      have houtc :
          (cartProd ((mats.map sd).map (List.map Prod.fst))).map prodZ
          = (sampleCombos sd mats).map comboOutcome := by
        rw [cartProd_map Prod.fst (mats.map sd), List.map_map]
        rfl
      rw [houtc] at hnp
      have hml : mats.length = obs.length := by
        rw [resolveMatrices_length cat (obs.zip par) mats hmats,
          List.length_zip]
        omega
      have hdw : (mats.map sd).length = wires.length := by
        rw [List.length_map]
        omega
      have hproj : cartProd ((((mats.map sd).map (List.map Prod.snd)).zip
            wires).map (fun gw => gw.1.map (fun p => (p, gw.2))))
          = (cartProd (mats.map sd)).map (fun c => projsOfCombo c wires) :=
        cartProd_proj_zip (mats.map sd) wires hdw
      rw [hproj] at heqp
      obtain ⟨r1, r2, r3⟩ := samplePrbLoop_char B _ d probs d1 heqp
      obtain ⟨n1, n2, n3⟩ := npChoice_ok _ d.shots probs rng vs hnp
      refine ⟨mats, probs, rfl, hnp, n1, ?_, ?_, ?_⟩
      · intro x hx
        have hxo := n2 x hx
        simp only [List.mem_map] at hxo
        obtain ⟨c, hc, hcc⟩ := hxo
        refine ⟨c, hc, hcc.symm, ?_⟩
        have hcl := cartProd_length_mem (mats.map sd) c hc
        rw [List.length_map] at hcl
        exact hcl
      · rw [r1, List.length_map]
        rfl
      · intro i c hc
        have hc' : (cartProd (mats.map sd)).get? i = some c := hc
        have hgi : ((cartProd (mats.map sd)).map
            (fun c => projsOfCombo c wires)).get? i
            = some (projsOfCombo c wires) := by
          rw [List.get?_map, hc']
          rfl
        have hr := r3 i (projsOfCombo c wires) hgi
        rw [hr]
        rfl

theorem C7_witness :
    (sample cat0 B0 sd0 (fun _ => 0) ["PauliZ"] [[0]] [[]] devEx1).1
      = .ok [1, 1, 1] ∧
    (∃ mats probs,
      resolveMatrices cat0 (["PauliZ"].zip [[]]) = .ok mats ∧
      npChoice ((sampleCombos sd0 mats).map comboOutcome) devEx1.shots probs
        (fun _ => 0) = .ok [1, 1, 1] ∧
      ([1, 1, 1] : List ℤ).length = devEx1.shots ∧
      (∀ x ∈ ([1, 1, 1] : List ℤ), ∃ c ∈ sampleCombos sd0 mats,
        x = comboOutcome c ∧ c.length = mats.length) ∧
      probs.length = (sampleCombos sd0 mats).length ∧
      (∀ i c, (sampleCombos sd0 mats).get? i = some c →
        probs.get? i = evValue B0 devEx1 (comboObs c [[0]]))) :=
  ⟨by decide,
   C7_sample_distribution cat0 B0 sd0 (fun _ => 0) ["PauliZ"] [[0]] [[]]
     devEx1 [1, 1, 1] (by decide) (by decide) (by decide)⟩

end DT
